import Mathlib

/-!
Verification development for the Cyber-Investigation executor agent.

This file gives a shallow embedding of the executor core
(`executor_agent.py`: `refine_query_for_tool`, `execute_task`,
`run_execution_plan`) together with the tool implementations it invokes
(`tools/main_opensearch.py`: `build_query`, `search_raw_logs`,
`search_alerts`, `get_agent_data`, `search_vulnerabilities`), and proves
the behavioural properties stated in the specification.

Python values (the JSON-like dicts, lists, strings, numbers, booleans and
None that flow through the executor) are modelled by the inductive `JVal`.
Python dictionaries are association lists keyed by strings (the executor
only ever builds string-keyed dictionaries); lookup takes the first
binding.  Python exceptions are modelled by `Except String`: a raised
exception is `.error msg`.  The OpenSearch backend (network client plus
wall-clock time) is abstracted as an `OSEnv`; a search call that raises is
an `.error` of `OSEnv.search`, which the tool bodies catch exactly where
the Python code has `try`/`except`.
-/

inductive JVal where
  | null
  | bool (b : Bool)
  | num (n : Int)
  | str (s : String)
  | arr (xs : List JVal)
  | obj (kvs : List (String × JVal))
  deriving Repr

mutual

def JVal.beq : JVal → JVal → Bool
  | .null, .null => true
  | .bool a, .bool b => a == b
  | .num a, .num b => a == b
  | .str a, .str b => a == b
  | .arr xs, .arr ys => JVal.beqList xs ys
  | .obj xs, .obj ys => JVal.beqObj xs ys
  | _, _ => false

def JVal.beqList : List JVal → List JVal → Bool
  | [], [] => true
  | x :: xs, y :: ys => JVal.beq x y && JVal.beqList xs ys
  | _, _ => false

def JVal.beqObj : List (String × JVal) → List (String × JVal) → Bool
  | [], [] => true
  | (k, x) :: xs, (l, y) :: ys => k == l && JVal.beq x y && JVal.beqObj xs ys
  | _, _ => false

end

mutual

theorem JVal.beq_iff : ∀ a b : JVal, JVal.beq a b = true ↔ a = b
  | .null, .null => by simp [JVal.beq]
  | .bool a, .bool b => by simp [JVal.beq]
  | .num a, .num b => by simp [JVal.beq]
  | .str a, .str b => by simp [JVal.beq]
  | .arr xs, .arr ys => by simp [JVal.beq, JVal.beqList_iff xs ys]
  | .obj xs, .obj ys => by simp [JVal.beq, JVal.beqObj_iff xs ys]
  | .null, .bool _ => by simp [JVal.beq]
  | .null, .num _ => by simp [JVal.beq]
  | .null, .str _ => by simp [JVal.beq]
  | .null, .arr _ => by simp [JVal.beq]
  | .null, .obj _ => by simp [JVal.beq]
  | .bool _, .null => by simp [JVal.beq]
  | .bool _, .num _ => by simp [JVal.beq]
  | .bool _, .str _ => by simp [JVal.beq]
  | .bool _, .arr _ => by simp [JVal.beq]
  | .bool _, .obj _ => by simp [JVal.beq]
  | .num _, .null => by simp [JVal.beq]
  | .num _, .bool _ => by simp [JVal.beq]
  | .num _, .str _ => by simp [JVal.beq]
  | .num _, .arr _ => by simp [JVal.beq]
  | .num _, .obj _ => by simp [JVal.beq]
  | .str _, .null => by simp [JVal.beq]
  | .str _, .bool _ => by simp [JVal.beq]
  | .str _, .num _ => by simp [JVal.beq]
  | .str _, .arr _ => by simp [JVal.beq]
  | .str _, .obj _ => by simp [JVal.beq]
  | .arr _, .null => by simp [JVal.beq]
  | .arr _, .bool _ => by simp [JVal.beq]
  | .arr _, .num _ => by simp [JVal.beq]
  | .arr _, .str _ => by simp [JVal.beq]
  | .arr _, .obj _ => by simp [JVal.beq]
  | .obj _, .null => by simp [JVal.beq]
  | .obj _, .bool _ => by simp [JVal.beq]
  | .obj _, .num _ => by simp [JVal.beq]
  | .obj _, .str _ => by simp [JVal.beq]
  | .obj _, .arr _ => by simp [JVal.beq]

theorem JVal.beqList_iff : ∀ xs ys : List JVal, JVal.beqList xs ys = true ↔ xs = ys
  | [], [] => by simp [JVal.beqList]
  | x :: xs, y :: ys => by
      simp [JVal.beqList, JVal.beq_iff x y, JVal.beqList_iff xs ys]
  | [], _ :: _ => by simp [JVal.beqList]
  | _ :: _, [] => by simp [JVal.beqList]

theorem JVal.beqObj_iff : ∀ xs ys : List (String × JVal), JVal.beqObj xs ys = true ↔ xs = ys
  | [], [] => by simp [JVal.beqObj]
  | (k, x) :: xs, (l, y) :: ys => by
      simp [JVal.beqObj, JVal.beq_iff x y, JVal.beqObj_iff xs ys]
  | [], _ :: _ => by simp [JVal.beqObj]
  | _ :: _, [] => by simp [JVal.beqObj]

end

instance : DecidableEq JVal := fun a b =>
  decidable_of_iff (JVal.beq a b = true) (JVal.beq_iff a b)

/-- Dictionary lookup: the value bound to `key`, if any (first binding wins). -/
def objGet : List (String × JVal) → String → Option JVal
  | [], _ => none
  | (k, v) :: rest, key => if k = key then some v else objGet rest key

/-- Dictionary update, with Python insertion-order semantics: an existing
key is updated in place, a new key is appended at the end. -/
def objSet : List (String × JVal) → String → JVal → List (String × JVal)
  | [], key, nv => [(key, nv)]
  | (k, v) :: rest, key, nv =>
    if k = key then (k, nv) :: rest else (k, v) :: objSet rest key nv

/-- Python truthiness: None, False, 0, empty string, empty list and empty
dict are falsy; everything else is truthy. -/
def truthy : JVal → Bool
  | .null => false
  | .bool b => b
  | .num n => decide (n ≠ 0)
  | .str s => decide (s ≠ "")
  | .arr xs => decide (xs ≠ [])
  | .obj kvs => decide (kvs ≠ [])

/-- Python str() of a value, as far as the executor relies on it.  The
executor interpolates values only into log/error message strings and into
one query string; no claim depends on the exact rendering of containers,
so lists and dicts get a fixed placeholder. -/
def pyStr : JVal → String
  | .null => "None"
  | .bool true => "True"
  | .bool false => "False"
  | .num n => toString n
  | .str s => s
  | .arr _ => "<list>"
  | .obj _ => "<dict>"

/-- Python `v.get(key, default)`: raises AttributeError unless `v` is a
dict; a stored None is returned as stored, the default only applies to an
absent key. -/
def pyGetD (v : JVal) (key : String) (dflt : JVal) : Except String JVal :=
  match v with
  | .obj kvs => .ok ((objGet kvs key).getD dflt)
  | _ => .error "AttributeError: object has no attribute get"

/-- Python `v.get(key)` (default None). -/
def pyGet (v : JVal) (key : String) : Except String JVal :=
  pyGetD v key .null

/-- Python `v[key]` with a string key: KeyError when the key is absent
from a dict, TypeError when `v` is not subscriptable by a string. -/
def pyIndexStr (v : JVal) (key : String) : Except String JVal :=
  match v with
  | .obj kvs =>
    match objGet kvs key with
    | some x => .ok x
    | none => .error ("KeyError: " ++ key)
  | _ => .error "TypeError: object is not subscriptable"

/-- Python `len(v)`: defined for strings, lists and dicts, TypeError
otherwise. -/
def pyLen (v : JVal) : Except String Nat :=
  match v with
  | .str s => .ok s.length
  | .arr xs => .ok xs.length
  | .obj kvs => .ok kvs.length
  | _ => .error "TypeError: object has no len"

/-- Python `v[0]`: head of a list or string; an integer subscript on a
(string-keyed) dict is a KeyError; other values raise TypeError. -/
def pyIndex0 : JVal → Except String JVal
  | .arr (x :: _) => .ok x
  | .arr [] => .error "IndexError: list index out of range"
  | .str s =>
    match s.data with
    | c :: _ => .ok (.str (String.singleton c))
    | [] => .error "IndexError: string index out of range"
  | .obj _ => .error "KeyError: 0"
  | _ => .error "TypeError: object is not subscriptable"

/-- Python iteration `for x in v`: the elements of a list, the characters
of a string, the keys of a dict; TypeError otherwise. -/
def pyIter : JVal → Except String (List JVal)
  | .arr xs => .ok xs
  | .str s => .ok (s.data.map fun c => .str (String.singleton c))
  | .obj kvs => .ok (kvs.map fun kv => .str kv.1)
  | _ => .error "TypeError: object is not iterable"

/-- Prefix test on character lists. -/
def isPrefixChars : List Char → List Char → Bool
  | [], _ => true
  | _ :: _, [] => false
  | p :: ps, c :: cs => if p = c then isPrefixChars ps cs else false

/-- Occurrence of a pattern anywhere in a character list (an empty
pattern occurs everywhere, as in Python). -/
def containsSub : List Char → List Char → Bool
  | s, pat =>
    if isPrefixChars pat s then true else
      match s with
      | [] => false
      | _ :: rest => containsSub rest pat

/-- Substring test used both for Python `in` on strings and for the
time-range parsing in build_query. -/
def strContainsB (s sub : String) : Bool :=
  containsSub s.data sub.data

/-- Python str.replace for a single-character pattern — the only form the
source uses (`time_range.replace("d", "")`). -/
def pyReplaceChar (s : String) (pat : Char) (rep : String) : String :=
  ⟨(s.data.map (fun c => if c = pat then rep.data else [c])).flatten⟩

/-- ASCII lowercase of one character (the executor only lowercases the
ASCII literal time ranges). -/
def asciiLowerChar (c : Char) : Char :=
  if 65 ≤ c.toNat ∧ c.toNat ≤ 90 then Char.ofNat (c.toNat + 32) else c

/-- Python str.lower over the ASCII strings the executor handles. -/
def pyLower (s : String) : String :=
  ⟨s.data.map asciiLowerChar⟩

/-- Whitespace stripped by Python int() around its argument. -/
def isPySpace (c : Char) : Bool :=
  c = ' ' ∨ c = '\t' ∨ c = '\n' ∨ c = '\r'

/-- Python str.strip() as int() applies it. -/
def pyStripChars (s : List Char) : List Char :=
  ((s.dropWhile isPySpace).reverse.dropWhile isPySpace).reverse

/-- Python `key in v` for a string key: key membership for a dict,
substring for a string, element membership for a list; TypeError for
non-containers. -/
def pyContains (v : JVal) (key : String) : Except String Bool :=
  match v with
  | .obj kvs => .ok (objGet kvs key).isSome
  | .str s => .ok (strContainsB s key)
  | .arr xs => .ok (xs.any fun x => decide (x = .str key))
  | _ => .error "TypeError: argument is not a container"

/-- Result Cache of one plan run (`results_cache` in the source).  A write
prepends a binding and the newest binding wins on lookup, so the visible
mapping is exactly the Python dict; keeping the full write history lets
the write-discipline claims be stated directly. -/
abbrev ResultsCache := List (JVal × JVal)

/-- The visible cache mapping under a hashable key: the newest binding
wins, None when absent.  `results_cache.get` reaches this lookup only
after the key hashed — see cacheGetE. -/
def cacheGet (cache : ResultsCache) (k : JVal) : JVal :=
  match cache with
  | [] => .null
  | (k0, v) :: rest => if k0 = k then v else cacheGet rest k

/-- The membership test under a hashable key — see cacheHasE for the
raising behaviour of `task_id in results_cache`. -/
def cacheHas (cache : ResultsCache) (k : JVal) : Bool :=
  match cache with
  | [] => false
  | (k0, _) :: rest => if k0 = k then true else cacheHas rest k

/-- Number of writes a run performed under a given key. -/
def cacheWriteCount (cache : ResultsCache) (k : JVal) : Nat :=
  match cache with
  | [] => 0
  | (k0, _) :: rest => (if k0 = k then 1 else 0) + cacheWriteCount rest k

/-- Python hashability of an embedded value: None, booleans, numbers and
strings can serve as dict keys; lists and dicts raise TypeError whenever
they are hashed — looked up in, tested against, or written to a dict. -/
def hashable : JVal → Bool
  | .arr _ => false
  | .obj _ => false
  | _ => true

theorem hashable_str (s : String) : hashable (.str s) = true := rfl

/-- The TypeError message raised when an unhashable value is hashed. -/
def unhashableMsg : JVal → String
  | .obj _ => "TypeError: unhashable type: \x27dict\x27"
  | _ => "TypeError: unhashable type: \x27list\x27"

/-- Python `results_cache.get(k)`: hashing an unhashable key raises
TypeError; otherwise the newest binding, None when absent. -/
def cacheGetE (cache : ResultsCache) (k : JVal) : Except String JVal :=
  if hashable k then .ok (cacheGet cache k) else .error (unhashableMsg k)

/-- Python `k in results_cache`: hashing an unhashable key raises
TypeError. -/
def cacheHasE (cache : ResultsCache) (k : JVal) : Except String Bool :=
  if hashable k then .ok (cacheHas cache k) else .error (unhashableMsg k)

/-- The comprehension `[results_cache.get(tid) for tid in deps]`: raises
at the first unhashable identifier. -/
def cacheGetAll (cache : ResultsCache) : List JVal → Except String (List JVal)
  | [] => .ok []
  | d :: rest =>
    match cacheGetE cache d with
    | .error e => .error e
    | .ok v =>
      match cacheGetAll cache rest with
      | .error e => .error e
      | .ok vs => .ok (v :: vs)

/-- The external OpenSearch backend as seen by the tools: whether the
module-level client initialized, the outcome of a search call per index
and body (`.error` is a raised exception, caught inside each tool), and
the two ISO timestamps `build_query` derives from the wall clock
(`utcnow().isoformat()` and `(utcnow() - timedelta(days=d)).isoformat()`). -/
structure OSEnv where
  clientUp : Bool
  search : String → JVal → Except String JVal
  nowIso : String
  startIso : Int → String

/-- Python `int(s)`: optional surrounding whitespace, optional sign,
decimal digits; ValueError otherwise. -/
def pyIntOfString (s : String) : Except String Int :=
  let t := pyStripChars s.data
  let neg := isPrefixChars ['-'] t
  let core := if isPrefixChars ['-'] t ∨ isPrefixChars ['+'] t then t.drop 1 else t
  if core ≠ [] ∧ core.all Char.isDigit then
    let n : Nat := core.foldl (fun acc c => acc * 10 + (c.toNat - 48)) 0
    .ok (if neg then -(n : Int) else (n : Int))
  else .error ("ValueError: invalid literal for int with base 10: " ++ s)

/-- Tool build_query (main_opensearch.py).  For a non-"anytime" range the
time filter spans from the derived start to now; a range containing "d"
parses its digit count (int() may raise ValueError), otherwise start =
now.  The result is always wrapped as a top-level query object whose bool
filter list holds the optional time filter followed by the query_string
filter. -/
def build_query (env : OSEnv) (query_string : JVal) (time_range : String) : Except String JVal :=
  if pyLower time_range ≠ "anytime" then
    match
      (if strContainsB time_range "d" then
        match pyIntOfString (pyReplaceChar time_range 'd' "") with
        | .ok days => Except.ok (env.startIso days)
        | .error e => .error e
      else .ok env.nowIso) with
    | .error e => .error e
    | .ok startStr =>
      .ok (.obj [("query", .obj [("bool", .obj [("filter", .arr [
            .obj [("range", .obj [("@timestamp", .obj [("gte", .str startStr), ("lte", .str env.nowIso)])])],
            .obj [("query_string", .obj [("query", query_string)])]
          ])])])])
  else
    .ok (.obj [("query", .obj [("bool", .obj [("filter", .arr [
          .obj [("query_string", .obj [("query", query_string)])]
        ])])])])

/-- The list comprehension over response hits: succeeds only when every
hit is a dict carrying "_source". -/
def extractSources : List JVal → Option (List JVal)
  | [] => some []
  | .obj kvs :: rest =>
    (match objGet kvs "_source" with
     | some v => (extractSources rest).map (v :: ·)
     | none => none)
  | _ :: _ => none

/-- The shared tail of every search tool:
`[hit["_source"] for hit in resp.get("hits", ...).get("hits", ...)]`
inside the try block.  Every exception along the chain (a non-dict
response, a non-dict "hits", a hit without "_source", iterating a
non-iterable) is caught by the surrounding `except` and returns [], and
iterating an empty dict or empty string also yields [] — so every
non-conforming shape collapses to the empty list. -/
def extractHits (resp : JVal) : JVal :=
  match resp with
  | .obj kvs =>
    (match (objGet kvs "hits").getD (.obj []) with
     | .obj hk =>
       (match (objGet hk "hits").getD (.arr []) with
        | .arr hits =>
          (match extractSources hits with
           | some srcs => .arr srcs
           | none => .arr [])
        | _ => .arr [])
     | _ => .arr [])
  | _ => .arr []

/-- Timestamp range filter `now-<time_range>`. -/
def tsRangeFilter (time_range : String) : JVal :=
  .obj [("range", .obj [("@timestamp", .obj [("gte", .str ("now-" ++ time_range))])])]

/-- Severity filter on rule.level. -/
def levelRangeFilter (min_level : Int) : JVal :=
  .obj [("range", .obj [("rule.level", .obj [("gte", .num min_level)])])]

/-- Tool search_raw_logs (main_opensearch.py): error marker when the
client never initialized, otherwise search wazuh-archives-* and collapse
failures to []. -/
def search_raw_logs (env : OSEnv) (query : JVal) (time_range : String) : JVal :=
  if env.clientUp = false then .obj [("error", .str "OpenSearch client not initialized")]
  else
    match env.search "wazuh-archives-*" (.obj [
      ("query", .obj [("bool", .obj [
        ("must", .arr [.obj [("query_string", .obj [("query", query)])]]),
        ("filter", .arr [tsRangeFilter time_range])])]),
      ("size", .num 20)]) with
    | .error _ => .arr []
    | .ok resp => extractHits resp

/-- Tool search_alerts (main_opensearch.py). -/
def search_alerts (env : OSEnv) (query : JVal) (time_range : String) (min_level : Int) : JVal :=
  if env.clientUp = false then .obj [("error", .str "OpenSearch client not initialized")]
  else
    match env.search "wazuh-alerts-*" (.obj [
      ("query", .obj [("bool", .obj [
        ("must", .arr [.obj [("query_string", .obj [("query", query)])]]),
        ("filter", .arr [tsRangeFilter time_range, levelRangeFilter min_level])])]),
      ("size", .num 20)]) with
    | .error _ => .arr []
    | .ok resp => extractHits resp

/-- Tool search_vulnerabilities (main_opensearch.py): prefixes the
vulnerability-detector group filter, interpolating any non-"*" query into
the query string. -/
def search_vulnerabilities (env : OSEnv) (query : JVal) (time_range : String) (min_level : Int) : JVal :=
  if env.clientUp = false then .obj [("error", .str "OpenSearch client not initialized")]
  else
    let vuln_query := if query = .str "*" then "rule.groups:vulnerability-detector"
      else "rule.groups:vulnerability-detector AND (" ++ pyStr query ++ ")"
    match env.search "wazuh-alerts-*" (.obj [
      ("query", .obj [("bool", .obj [
        ("must", .arr [.obj [("query_string", .obj [("query", .str vuln_query)])]]),
        ("filter", .arr [tsRangeFilter time_range, levelRangeFilter min_level])])]),
      ("size", .num 20)]) with
    | .error _ => .arr []
    | .ok resp => extractHits resp

/-- Tool get_agent_data (main_opensearch.py): error markers for a missing
client and for missing identifiers, otherwise a size-1 search on
wazuh-agent-*. -/
def get_agent_data (env : OSEnv) (agent_id agent_name : JVal) : JVal :=
  if env.clientUp = false then .obj [("error", .str "OpenSearch client not initialized")]
  else if truthy agent_id = false ∧ truthy agent_name = false then
    .obj [("error", .str "agent_id or agent_name required")]
  else
    let query_str := if truthy agent_id then "agent.id:\"" ++ pyStr agent_id ++ "\""
      else "agent.name:\"" ++ pyStr agent_name ++ "\""
    match env.search "wazuh-agent-*" (.obj [
      ("query", .obj [("query_string", .obj [("query", .str query_str)])]),
      ("size", .num 1)]) with
    | .error _ => .arr []
    | .ok resp => extractHits resp

/-- Identity on embedded values: every `JVal` is JSON-serializable, so
`json.dumps` never raises and safe_json returns its argument unchanged. -/
def safe_json (v : JVal) : JVal := v

/-- The shape normalization applied both to a cached dependency result
(executor_agent.py lines 114-121) and to a fresh build_query result
(lines 128-131): a dict with a dict-valued "query" field is unwrapped to
that field, anything else passes through. -/
def unwrapQuery (v : JVal) : JVal :=
  match v with
  | .obj kvs =>
    (match objGet kvs "query" with
     | some (.obj q) => .obj q
     | _ => .obj kvs)
  | v => v

/-- The unwrap applied after refinement (executor_agent.py line 136):
only a dict whose single key is "query" is unwrapped, and the inner value
need not be a dict. -/
def postUnwrap (v : JVal) : JVal :=
  match v with
  | .obj [(k, q)] => if k = "query" then q else .obj [(k, q)]
  | v => v

/-- The per-tool filter predicates appended by refine_query_for_tool. -/
def refineAdditions (tool_name : String) : List JVal :=
  if tool_name = "search_alerts" then
    [.obj [("match_phrase", .obj [("rule.description", .str "ssh")])],
     .obj [("range", .obj [("rule.level", .obj [("gte", .num 5)])])]]
  else if tool_name = "search_raw_logs" then
    [.obj [("match_phrase", .obj [("event.action", .str "failure")])],
     .obj [("match_phrase", .obj [("process.name", .str "sshd")])]]
  else if tool_name = "search_vulnerabilities" then
    [.obj [("wildcard", .obj [("vulnerability.id", .str "CVE-*")])]]
  else []

/-- refine_query_for_tool (executor_agent.py lines 54-75), at the level of
values.  A non-dict input is returned unchanged.  For a dict the source
deep-copies it (value-identical here; the aliasing side of the deep copy
is verified separately on the heap model below), then runs
`refined.setdefault("bool", ...).setdefault("must", ...)`: if an existing
"bool" value is not a dict the chained setdefault raises AttributeError,
and `... += additions` (or `.append`) raises when the existing "must"
value is not a list.  Tools without additions still get the ensured
bool/must structure. -/
def refine_query_for_tool (base_query : JVal) (tool_name : String) : Except String JVal :=
  match base_query with
  | .obj kvs =>
    (match (objGet kvs "bool").getD (.obj []) with
     | .obj bkvs =>
       let kvs1 := if (objGet kvs "bool").isSome then kvs else kvs ++ [("bool", .obj [])]
       let bkvs1 := if (objGet bkvs "must").isSome then bkvs else bkvs ++ [("must", .arr [])]
       let kvs2 := objSet kvs1 "bool" (.obj bkvs1)
       (match refineAdditions tool_name with
        | [] => .ok (.obj kvs2)
        | adds =>
          (match objGet bkvs1 "must" with
           | some (.arr ms) =>
             .ok (.obj (objSet kvs2 "bool" (.obj (objSet bkvs1 "must" (.arr (ms ++ adds))))))
           | _ => .error "TypeError: unsupported operand types for iadd"))
     | _ => .error "AttributeError: object has no attribute setdefault")
  | v => .ok v

/-- The keys of TOOL_MAPPING. -/
def toolNames : List String :=
  ["build_query", "search_raw_logs", "search_alerts", "get_agent_data", "search_vulnerabilities"]

/-- The three search-style tools. -/
def searchToolNames : List String :=
  ["search_raw_logs", "search_alerts", "search_vulnerabilities"]

/-- TOOL_MAPPING.get(tool_name): a mapped capability exists exactly for
the five registered string names (a non-string declared tool name never
matches a key). -/
def toolNameOf : JVal → Option String
  | .str s =>
    if s = "build_query" ∨ s = "search_raw_logs" ∨ s = "search_alerts" ∨
        s = "get_agent_data" ∨ s = "search_vulnerabilities" then some s else none
  | _ => none

/-- The error message for an unregistered tool
(`f"... Tool '...' not found or undefined."`). -/
def notFoundMsg (toolV : JVal) : String :=
  "❌ Tool \x27" ++ pyStr toolV ++ "\x27 not found or undefined."

/-- Dispatch of the three search tools with the arguments the executor
passes (`query=refined, time_range="2d"`; minimum levels keep their
defaults 0 and 5). -/
def invokeSearchTool (env : OSEnv) (name : String) (q : JVal) (time_range : String) : JVal :=
  if name = "search_raw_logs" then search_raw_logs env q time_range
  else if name = "search_alerts" then search_alerts env q time_range 0
  else search_vulnerabilities env q time_range 5

/-- The search-tool branch of execute_task (executor_agent.py lines
106-146): read the declared dependencies (`or []` on a falsy value), take
the first one when the list is non-empty, normalize its cached result to
a base query, fall back to a fresh build_query when no truthy base is
available, refine, unwrap a single-key query wrapper, and invoke the
tool.  Each step that can raise is an `Except` step caught by the
enclosing try; in particular looking up a truthy unhashable dependency
identifier in the cache raises TypeError. -/
def searchBranch (env : OSEnv) (task subV : JVal) (name : String) (cache : ResultsCache) :
    Except String JVal :=
  match pyGet task "dependent_on_tasks" with
  | .error e => .error e
  | .ok d0 =>
    let depsV := if truthy d0 then d0 else .arr []
    match pyLen depsV with
    | .error e => .error e
    | .ok n =>
      match (if 0 < n then pyIndex0 depsV else .ok .null) with
      | .error e => .error e
      | .ok prevId =>
        match (if truthy prevId then
                 match cacheGetE cache prevId with
                 | .ok prev => Except.ok (unwrapQuery prev)
                 | .error e => Except.error e
               else Except.ok .null) with
        | .error e => .error e
        | .ok base1 =>
          match (if truthy base1 then Except.ok base1 else
                  match build_query env subV "2d" with
                  | .ok built => Except.ok (unwrapQuery built)
                  | .error e => Except.error e) with
          | .error e => .error e
          | .ok base2 =>
            match refine_query_for_tool base2 name with
            | .error e => .error e
            | .ok refined => .ok (invokeSearchTool env name (postUnwrap refined) "2d")

/-- The defensive agent-name extraction of the get_agent_data branch
(executor_agent.py lines 154-161): a name is produced only when the first
dependency result is a non-empty list whose first element is a dict with
a dict-valued "agent" field carrying "name"; every failure mode inside
the inner try (non-dict element, non-dict "agent" value) is caught and
leaves the name as None. -/
def extractAgentName (prevResults : List JVal) : JVal :=
  match prevResults with
  | [] => .null
  | first :: _ =>
    (match first with
     | .arr (x :: _) =>
       (match x with
        | .obj kvs =>
          (match objGet kvs "agent" with
           | some (.obj akvs) => (objGet akvs "name").getD .null
           | some _ => .null
           | none => .null)
        | _ => .null)
     | _ => .null)

/-- The get_agent_data branch of execute_task (executor_agent.py lines
151-163): resolve every declared dependency from the cache (an unhashable
identifier makes the lookup comprehension raise TypeError, caught by the
enclosing try), extract an agent name defensively, and invoke the tool
with agent_id=None. -/
def agentBranch (env : OSEnv) (task : JVal) (cache : ResultsCache) : Except String JVal :=
  match pyGet task "dependent_on_tasks" with
  | .error e => .error e
  | .ok d0 =>
    match pyIter (if truthy d0 then d0 else .arr []) with
    | .error e => .error e
    | .ok deps =>
      match cacheGetAll cache deps with
      | .error e => .error e
      | .ok prevs => .ok (get_agent_data env .null (extractAgentName prevs))

/-- The tool-specific body of the try block of execute_task: build_query
is invoked directly with the sub task and the fixed "2d" window, the
search tools go through searchBranch, get_agent_data through agentBranch.
The final `else: result = func()` of the source is unreachable because
every TOOL_MAPPING key is matched above. -/
def toolResult (env : OSEnv) (task : JVal) (name : String) (subV : JVal) (cache : ResultsCache) :
    Except String JVal :=
  if name = "build_query" then build_query env subV "2d"
  else if name = "search_raw_logs" ∨ name = "search_alerts" ∨ name = "search_vulnerabilities" then
    searchBranch env task subV name cache
  else if name = "get_agent_data" then agentBranch env task cache
  else .error "unreachable: every TOOL_MAPPING key is handled above"

/-- The whole try block of execute_task (executor_agent.py lines 96-178):
compute the tool result, make it JSON safe, then look up task["task_id"]
(a KeyError here is caught like any other exception) and write the cache
entry — the write hashes the identifier, so an unhashable task_id raises
TypeError, likewise caught.  On success it yields the pair that is both
returned and written to the cache. -/
def executeTaskTry (env : OSEnv) (task : JVal) (name : String) (subV : JVal)
    (cache : ResultsCache) : Except String (JVal × JVal) :=
  match toolResult env task name subV cache with
  | .error e => .error e
  | .ok r =>
    match pyIndexStr task "task_id" with
    | .error e => .error e
    | .ok tid =>
      if hashable tid then .ok (tid, safe_json r) else .error (unhashableMsg tid)

/-- A per-task outcome: `{task_id, result}` on success or
`{task_id, error}` on failure. -/
inductive Outcome where
  | ok (taskId : JVal) (result : JVal)
  | err (taskId : JVal) (msg : String)
  deriving Repr, DecidableEq

/-- The task identifier an outcome record carries. -/
def outcomeId : Outcome → JVal
  | .ok tid _ => tid
  | .err tid _ => tid

/-- execute_task (executor_agent.py lines 81-182).  Reading tool_name and
sub_task from a non-dict task raises before the try block and therefore
propagates; so does TOOL_MAPPING.get(tool_name), which hashes the
declared tool name — a list or dict tool name raises TypeError out of
execute_task.  An unregistered hashable tool yields a failure outcome
without invoking anything.  Otherwise the try block runs: on success the
result is written to the Result Cache under the task identifier and a
success outcome is returned; any exception inside the try is converted
to a failure outcome built from task.get("task_id"), with the cache
untouched (the single cache write of the source sits at the end of the
try). -/
def execute_task (env : OSEnv) (task : JVal) (cache : ResultsCache) :
    Except String (Outcome × ResultsCache) :=
  match pyGet task "tool_name" with
  | .error e => .error e
  | .ok toolV =>
    match pyGetD task "sub_task" (.str "") with
    | .error e => .error e
    | .ok subV =>
      if hashable toolV = false then .error (unhashableMsg toolV) else
      match toolNameOf toolV with
      | none =>
        (match pyGet task "task_id" with
         | .error e => .error e
         | .ok tid => .ok (.err tid (notFoundMsg toolV), cache))
      | some name =>
        match executeTaskTry env task name subV cache with
        | .ok (tid, r) => .ok (.ok tid r, (tid, r) :: cache)
        | .error e =>
          (match pyGet task "task_id" with
           | .error e2 => .error e2
           | .ok tid => .ok (.err tid e, cache))

/-- The lazy scan `next((t for t in plan["plans"] if t["task_id"] ==
dep_id), None)` (executor_agent.py line 207): scanning evaluates
t["task_id"] on each candidate, so a task without the key raises KeyError
out of run_execution_plan. -/
def findDepTask (tasks : List JVal) (depId : JVal) : Except String (Option JVal) :=
  match tasks with
  | [] => .ok none
  | t :: rest =>
    match pyIndexStr t "task_id" with
    | .error e => .error e
    | .ok tid => if tid = depId then .ok (some t) else findDepTask rest depId

/-- The dependency-resolution loop of run_execution_plan (lines 205-210):
each declared dependency not yet in the Result Cache is located in the
plan and dispatched, its outcome appended to the trace; a dependency not
found in the plan is skipped.  The membership test hashes the identifier,
so an unhashable dependency identifier raises TypeError out of the run
loop.  Only this one level is resolved — the dispatched dependency task
goes straight to execute_task, which never recurses into dependencies of
dependencies. -/
def resolveDeps (env : OSEnv) (allTasks : List JVal) :
    List JVal → ResultsCache → List Outcome → Except String (ResultsCache × List Outcome)
  | [], cache, trace => .ok (cache, trace)
  | d :: rest, cache, trace =>
    match cacheHasE cache d with
    | .error e => .error e
    | .ok true => resolveDeps env allTasks rest cache trace
    | .ok false =>
      match findDepTask allTasks d with
      | .error e => .error e
      | .ok none => resolveDeps env allTasks rest cache trace
      | .ok (some dt) =>
        match execute_task env dt cache with
        | .error e => .error e
        | .ok (o, cache1) => resolveDeps env allTasks rest cache1 (trace ++ [o])

/-- The main loop of run_execution_plan (lines 200-214): for each task in
plan order, read task_id and dependencies (both raise on a non-dict
task, and iterating a truthy non-iterable dependency value raises),
resolve missing dependencies one level deep, then dispatch the task
itself unconditionally and append its outcome. -/
def runLoop (env : OSEnv) (allTasks : List JVal) :
    List JVal → ResultsCache → List Outcome → Except String (ResultsCache × List Outcome)
  | [], cache, trace => .ok (cache, trace)
  | task :: rest, cache, trace =>
    match pyGet task "task_id" with
    | .error e => .error e
    | .ok _ =>
      match pyGetD task "dependent_on_tasks" (.arr []) with
      | .error e => .error e
      | .ok d0 =>
        match pyIter (if truthy d0 then d0 else .arr []) with
        | .error e => .error e
        | .ok deps =>
          match resolveDeps env allTasks deps cache trace with
          | .error e => .error e
          | .ok (cache1, trace1) =>
            match execute_task env task cache1 with
            | .error e => .error e
            | .ok (o, cache2) => runLoop env allTasks rest cache2 (trace1 ++ [o])

/-- Insertion with Python dict-comprehension semantics: a duplicate key
overwrites in place, a new key is appended. -/
def setAssoc (m : List (JVal × JVal)) (k v : JVal) : List (JVal × JVal) :=
  match m with
  | [] => [(k, v)]
  | (k0, v0) :: rest => if k0 = k then (k0, v) :: rest else (k0, v0) :: setAssoc rest k v

/-- The aggregation comprehension (lines 216-220): only trace records
carrying a "result" field contribute, keyed by their task_id. -/
def aggregate (trace : List Outcome) : List (JVal × JVal) :=
  trace.foldl (fun m o =>
    match o with
    | .ok tid r => setAssoc m tid r
    | .err _ _ => m) []

/-- The two top-level result shapes of run_execution_plan:
`.invalid e` is the dict with status False and the error message, and
`.completed trace agg` is the status-True dict with the execution trace
and the aggregated results (the executed_at timestamp carries no
information relevant to any claim and is omitted). -/
inductive RunResult where
  | invalid (error : String)
  | completed (taskResults : List Outcome) (aggregated : List (JVal × JVal))
  deriving Repr, DecidableEq

/-- run_execution_plan (executor_agent.py lines 188-228): a falsy plan or
one without a "plans" member is rejected with a structured failure (the
membership test itself raises on a non-container); otherwise the loop
runs over plan["plans"] (raising if that value is not iterable) with a
fresh Result Cache and trace, and the completed result always carries
status True. -/
def run_execution_plan (env : OSEnv) (plan : JVal) : Except String RunResult :=
  if truthy plan = false then .ok (.invalid "Invalid plan format")
  else
    match pyContains plan "plans" with
    | .error e => .error e
    | .ok false => .ok (.invalid "Invalid plan format")
    | .ok true =>
      match pyIndexStr plan "plans" with
      | .error e => .error e
      | .ok plansV =>
        match pyIter plansV with
        | .error e => .error e
        | .ok tasks =>
          match runLoop env tasks tasks [] [] with
          | .error e => .error e
          | .ok (_, trace) => .ok (.completed trace (aggregate trace))

instance {ε α : Type} [DecidableEq ε] [DecidableEq α] : DecidableEq (Except ε α) := fun a b =>
  match a, b with
  | .ok x, .ok y =>
    if h : x = y then .isTrue (by rw [h]) else .isFalse (by simp [h])
  | .error x, .error y =>
    if h : x = y then .isTrue (by rw [h]) else .isFalse (by simp [h])
  | .ok _, .error _ => .isFalse (by simp)
  | .error _, .ok _ => .isFalse (by simp)

/-- A fixed backend environment for the concrete scenarios: the client
never initialized, searches would answer None, and the two wall-clock
strings are opaque markers. -/
def env0 : OSEnv :=
  { clientUp := false, search := fun _ _ => .ok .null,
    nowIso := "NOW", startIso := fun _ => "START" }

/-- Whether a value is a Python dict. -/
def isDict : JVal → Bool
  | .obj _ => true
  | _ => false

/-- The task identifier field of a task dict (None when absent), as both
outcome constructors of execute_task produce it. -/
def taskIdVal : JVal → JVal
  | .obj kvs => (objGet kvs "task_id").getD .null
  | _ => .null

section ObjLemmas

theorem objGet_objSet_self (kvs : List (String × JVal)) (k : String) (v : JVal) :
    objGet (objSet kvs k v) k = some v := by
  induction kvs with
  | nil => simp [objSet, objGet]
  | cons p rest ih =>
    obtain ⟨k0, v0⟩ := p
    by_cases h : k0 = k <;> simp [objSet, objGet, h, ih]

theorem objGet_append_none (xs ys : List (String × JVal)) (k : String)
    (h : objGet xs k = none) : objGet (xs ++ ys) k = objGet ys k := by
  induction xs with
  | nil => simp
  | cons p rest ih =>
    obtain ⟨k0, v0⟩ := p
    by_cases hk : k0 = k
    · simp [objGet, hk] at h
    · simp [objGet, hk] at h ⊢
      exact ih h

end ObjLemmas

/-- The ssh phrase filter refine_query_for_tool adds for search_alerts. -/
def sshFilter : JVal := .obj [("match_phrase", .obj [("rule.description", .str "ssh")])]

/-- The minimum-severity filter refine_query_for_tool adds for search_alerts. -/
def levelFilter : JVal := .obj [("range", .obj [("rule.level", .obj [("gte", .num 5)])])]

/-- A refined predicate contains a given conjunct in its bool.must list. -/
def hasMustFilter (kvs : List (String × JVal)) (f : JVal) : Prop :=
  ∃ b ms, objGet kvs "bool" = some (.obj b) ∧ objGet b "must" = some (.arr ms) ∧ f ∈ ms

/-- Well-shapedness of a dict base query for refinement: an existing
"bool" member must be a dict and an existing "must" member inside it must
be a list; otherwise the setdefault chain or the list extension raises. -/
def goodBoolMust (kvs : List (String × JVal)) : Bool :=
  match objGet kvs "bool" with
  | none => true
  | some (.obj b) =>
    (match objGet b "must" with
     | none => true
     | some (.arr _) => true
     | some _ => false)
  | some _ => false

theorem refine_alerts_step (kvs : List (String × JVal)) (h : goodBoolMust kvs = true) :
    ∃ kvs1, refine_query_for_tool (.obj kvs) "search_alerts" = .ok (.obj kvs1) ∧
      hasMustFilter kvs1 sshFilter ∧ hasMustFilter kvs1 levelFilter ∧
      goodBoolMust kvs1 = true := by
  cases hb : objGet kvs "bool" with
  | none =>
    refine ⟨objSet (objSet (kvs ++ [("bool", JVal.obj [])]) "bool" (.obj [("must", .arr [])]))
        "bool" (.obj [("must", .arr [sshFilter, levelFilter])]), ?_, ?_, ?_, ?_⟩
    · simp [refine_query_for_tool, hb, refineAdditions, objGet, objSet, sshFilter, levelFilter]
    · exact ⟨_, [sshFilter, levelFilter], objGet_objSet_self .., by simp [objGet], by simp⟩
    · exact ⟨_, [sshFilter, levelFilter], objGet_objSet_self .., by simp [objGet], by simp⟩
    · simp [goodBoolMust, objGet_objSet_self, objGet]
  | some bv =>
    cases bv with
    | obj b =>
      cases hm : objGet b "must" with
      | none =>
        refine ⟨objSet (objSet kvs "bool" (.obj (b ++ [("must", .arr [])]))) "bool"
            (.obj (objSet (b ++ [("must", .arr [])]) "must" (.arr [sshFilter, levelFilter]))),
          ?_, ?_, ?_, ?_⟩
        · simp [refine_query_for_tool, hb, hm, refineAdditions,
            objGet_append_none _ _ _ hm, objGet, sshFilter, levelFilter]
        · exact ⟨_, _, objGet_objSet_self .., by rw [objGet_objSet_self], by simp⟩
        · exact ⟨_, _, objGet_objSet_self .., by rw [objGet_objSet_self], by simp⟩
        · simp [goodBoolMust, objGet_objSet_self]
      | some mv =>
        cases mv with
        | arr ms =>
          refine ⟨objSet (objSet kvs "bool" (.obj b)) "bool"
              (.obj (objSet b "must" (.arr (ms ++ [sshFilter, levelFilter])))), ?_, ?_, ?_, ?_⟩
          · simp [refine_query_for_tool, hb, hm, refineAdditions, sshFilter, levelFilter]
          · exact ⟨_, _, objGet_objSet_self .., by rw [objGet_objSet_self], by simp⟩
          · exact ⟨_, _, objGet_objSet_self .., by rw [objGet_objSet_self], by simp⟩
          · simp [goodBoolMust, objGet_objSet_self]
        | null => exact absurd h (by simp [goodBoolMust, hb, hm])
        | bool b0 => exact absurd h (by simp [goodBoolMust, hb, hm])
        | num n0 => exact absurd h (by simp [goodBoolMust, hb, hm])
        | str s0 => exact absurd h (by simp [goodBoolMust, hb, hm])
        | obj o0 => exact absurd h (by simp [goodBoolMust, hb, hm])
    | null => exact absurd h (by simp [goodBoolMust, hb])
    | bool b0 => exact absurd h (by simp [goodBoolMust, hb])
    | num n0 => exact absurd h (by simp [goodBoolMust, hb])
    | str s0 => exact absurd h (by simp [goodBoolMust, hb])
    | arr a0 => exact absurd h (by simp [goodBoolMust, hb])

/-- C5 (amended).  For every dict base query whose optional "bool" member
is a dict and whose optional nested "must" member is a list,
refine(base, "search_alerts") yields a predicate containing both the ssh
match_phrase filter and the rule.level ≥ 5 range filter, and applying
refine twice with the same tool name still yields a predicate containing
both required filters (duplicates accumulate); a non-dict input is
returned unchanged for every tool name.  (The unamended claim, quantified
over every dict, fails: a dict whose "bool" member is not itself a dict
makes the chained setdefault raise — see the counterexample.) -/
theorem refine_alerts_filters_present :
    (∀ kvs : List (String × JVal), goodBoolMust kvs = true →
      ∃ kvs1, refine_query_for_tool (.obj kvs) "search_alerts" = .ok (.obj kvs1) ∧
        hasMustFilter kvs1 sshFilter ∧ hasMustFilter kvs1 levelFilter ∧
        ∃ kvs2, refine_query_for_tool (.obj kvs1) "search_alerts" = .ok (.obj kvs2) ∧
          hasMustFilter kvs2 sshFilter ∧ hasMustFilter kvs2 levelFilter) ∧
    (∀ (v : JVal) (t : String), isDict v = false → refine_query_for_tool v t = .ok v) := by
  constructor
  · intro kvs h
    obtain ⟨kvs1, he, hs, hl, hg⟩ := refine_alerts_step kvs h
    obtain ⟨kvs2, he2, hs2, hl2, _⟩ := refine_alerts_step kvs1 hg
    exact ⟨kvs1, he, hs, hl, kvs2, he2, hs2, hl2⟩
  · intro v t hv
    cases v <;> simp_all [refine_query_for_tool, isDict]

/-- C5 counterexample.  The claim as stated quantifies over every dict
base query, but refine(base, "search_alerts") on the dict whose "bool"
member is the number 5 raises AttributeError (5 has no setdefault) instead
of yielding a predicate containing the two filters. -/
theorem refine_alerts_raises_on_bad_bool :
    refine_query_for_tool (.obj [("bool", .num 5)]) "search_alerts" =
      .error "AttributeError: object has no attribute setdefault" := by
  rfl

/-- C5 witness: the amended theorem applied to the empty dict and to a
string base query. -/
theorem refine_alerts_filters_witness :
    (goodBoolMust [] = true ∧
      (∃ kvs1, refine_query_for_tool (.obj []) "search_alerts" = .ok (.obj kvs1) ∧
        hasMustFilter kvs1 sshFilter ∧ hasMustFilter kvs1 levelFilter ∧
        ∃ kvs2, refine_query_for_tool (.obj kvs1) "search_alerts" = .ok (.obj kvs2) ∧
          hasMustFilter kvs2 sshFilter ∧ hasMustFilter kvs2 levelFilter)) ∧
    (isDict (.str "srcip:1.2.3.4") = false ∧
      refine_query_for_tool (.str "srcip:1.2.3.4") "search_alerts" = .ok (.str "srcip:1.2.3.4")) :=
  ⟨⟨by decide, refine_alerts_filters_present.1 [] (by decide)⟩,
   ⟨by decide, refine_alerts_filters_present.2 (.str "srcip:1.2.3.4") "search_alerts" (by decide)⟩⟩

/-- C9 (amended).  run_execution_plan returns the structured failure
result — status False with a descriptive error, no exception, no task
attempted — exactly when the input is falsy (None or an empty container)
or is a container without a "plans" member.  (The unamended claim also
covered inputs whose "plans" member is present but is not a task
sequence; those raise instead — see the counterexample.) -/
theorem invalid_plan_shape_rejected (env : OSEnv) (plan : JVal)
    (h : truthy plan = false ∨ pyContains plan "plans" = .ok false) :
    run_execution_plan env plan = .ok (.invalid "Invalid plan format") := by
  rcases h with h | h
  · simp [run_execution_plan, h]
  · by_cases ht : truthy plan = false
    · simp [run_execution_plan, ht]
    · simp only [Bool.not_eq_false] at ht
      simp [run_execution_plan, ht, h]

/-- C9 counterexample.  The plan {"plans": 5} lacks a "plans" task
sequence, yet run_execution_plan raises TypeError when it starts
iterating the number 5 instead of returning the structured failure. -/
theorem plan_nonlist_plans_raises :
    run_execution_plan env0 (.obj [("plans", .num 5)]) =
      .error "TypeError: object is not iterable" := by
  rfl

/-- C9 witness: the amended theorem applied to the empty dict and to a
dict without a "plans" member. -/
theorem invalid_plan_shape_witness :
    run_execution_plan env0 (.obj []) = .ok (.invalid "Invalid plan format") ∧
    run_execution_plan env0 (.obj [("goal", .str "g")]) = .ok (.invalid "Invalid plan format") :=
  ⟨invalid_plan_shape_rejected env0 (.obj []) (Or.inl (by decide)),
   invalid_plan_shape_rejected env0 (.obj [("goal", .str "g")]) (Or.inr (by decide))⟩

/-- Projection of a completed run to the sequence of task identifiers of
its execution trace. -/
def traceIds (r : Except String RunResult) : Option (List JVal) :=
  match r with
  | .ok (.completed tr _) => some (tr.map outcomeId)
  | _ => none

/-- A three-task plan listing a two-level dependency chain in reverse
plan order: task 3 depends on task 2, which depends on task 1. -/
def chainPlan : JVal := .obj [("plans", .arr [
  .obj [("task_id", .str "3"), ("sub_task", .str "c"), ("tool_name", .str "build_query"),
        ("dependent_on_tasks", .arr [.str "2"])],
  .obj [("task_id", .str "2"), ("sub_task", .str "b"), ("tool_name", .str "build_query"),
        ("dependent_on_tasks", .arr [.str "1"])],
  .obj [("task_id", .str "1"), ("sub_task", .str "a"), ("tool_name", .str "build_query"),
        ("dependent_on_tasks", .arr [])]])]

/-- C3.  Dependency resolution in run_execution_plan is exactly one level
deep.  On the reverse-ordered chain of chainPlan the runner dispatches
task 2 (the direct dependency of task 3) before task 3, but it never
recurses into the dependency of task 2: the trace runs 2, 3, 1, 2, 1, so
task 1 — transitively required by task 3 — is first dispatched only after
task 3 has already executed. -/
theorem shallow_dependency_resolution :
    traceIds (run_execution_plan env0 chainPlan) =
      some [.str "2", .str "3", .str "1", .str "2", .str "1"] ∧
    List.indexOf (JVal.str "3")
        [JVal.str "2", JVal.str "3", JVal.str "1", JVal.str "2", JVal.str "1"] <
      List.indexOf (JVal.str "1")
        [JVal.str "2", JVal.str "3", JVal.str "1", JVal.str "2", JVal.str "1"] :=
  ⟨by decide, by decide⟩

theorem executeTaskTry_ok_tid {env : OSEnv} {t : JVal} {name : String} {s : JVal}
    {c : ResultsCache} {tid r : JVal}
    (h : executeTaskTry env t name s c = .ok (tid, r)) :
    pyIndexStr t "task_id" = .ok tid := by
  unfold executeTaskTry at h
  cases htr : toolResult env t name s c with
  | error e => rw [htr] at h; exact absurd h (by simp)
  | ok r0 =>
    rw [htr] at h
    cases hti : pyIndexStr t "task_id" with
    | error e => rw [hti] at h; exact absurd h (by simp)
    | ok tid0 =>
      rw [hti] at h
      dsimp only at h
      by_cases hh : hashable tid0 = true
      · rw [if_pos hh] at h
        simp only [Except.ok.injEq, Prod.mk.injEq] at h
        rw [h.1]
      · rw [if_neg hh] at h
        exact absurd h (by simp)

/-- Dispatching a dict task never raises, and the outcome always carries
the task_id member of the task (None when absent): the success branch
reads task["task_id"] inside the try, the failure branch reads
task.get("task_id"). -/
theorem pyIndexStr_obj (kvs : List (String × JVal)) (key : String) :
    pyIndexStr (.obj kvs) key =
      (match objGet kvs key with
       | some x => .ok x
       | none => .error ("KeyError: " ++ key)) := rfl

/-- TOOL_MAPPING.get returns a capability only for string names, and
every string is hashable. -/
theorem toolNameOf_some_hashable {v : JVal} {name : String}
    (h : toolNameOf v = some name) : hashable v = true := by
  cases v with
  | str s => rfl
  | null => exact absurd h (by simp [toolNameOf])
  | bool b => exact absurd h (by simp [toolNameOf])
  | num n => exact absurd h (by simp [toolNameOf])
  | arr xs => exact absurd h (by simp [toolNameOf])
  | obj o => exact absurd h (by simp [toolNameOf])

theorem execute_task_total_id (env : OSEnv) (kvs : List (String × JVal)) (cache : ResultsCache)
    (hh : hashable ((objGet kvs "tool_name").getD .null) = true) :
    ∃ o c2, execute_task env (.obj kvs) cache = .ok (o, c2) ∧
      outcomeId o = taskIdVal (.obj kvs) := by
  cases htn : toolNameOf ((objGet kvs "tool_name").getD .null) with
  | none =>
    refine ⟨.err ((objGet kvs "task_id").getD .null)
        (notFoundMsg ((objGet kvs "tool_name").getD .null)), cache, ?_, ?_⟩
    · simp [execute_task, pyGet, pyGetD, hh, htn]
    · simp [outcomeId, taskIdVal]
  | some name =>
    cases h : executeTaskTry env (.obj kvs) name ((objGet kvs "sub_task").getD (.str "")) cache with
    | ok p =>
      obtain ⟨tid, r⟩ := p
      have hti := executeTaskTry_ok_tid h
      rw [pyIndexStr_obj] at hti
      refine ⟨.ok tid r, (tid, r) :: cache, ?_, ?_⟩
      · simp [execute_task, pyGet, pyGetD, hh, htn, h]
      · cases hg : objGet kvs "task_id" with
        | none => rw [hg] at hti; exact absurd hti (by simp)
        | some x =>
          rw [hg] at hti
          simp only [Except.ok.injEq] at hti
          simp [outcomeId, taskIdVal, hg, hti]
    | error e =>
      refine ⟨.err ((objGet kvs "task_id").getD .null) e, cache, ?_, ?_⟩
      · simp [execute_task, pyGet, pyGetD, hh, htn, h]
      · simp [outcomeId, taskIdVal]

/-- Dispatching a dict task either succeeds and prepends exactly one
cache binding under the returned identifier, fails and leaves the cache
untouched, or raises out of the dispatcher (hashing an unhashable tool
name before the try). -/
theorem execute_task_cases (env : OSEnv) (kvs : List (String × JVal)) (cache : ResultsCache) :
    (∃ tid r, execute_task env (.obj kvs) cache = .ok (.ok tid r, (tid, r) :: cache)) ∨
    (∃ tid e, execute_task env (.obj kvs) cache = .ok (.err tid e, cache)) ∨
    (∃ e, execute_task env (.obj kvs) cache = .error e) := by
  by_cases hh : hashable ((objGet kvs "tool_name").getD .null) = true
  · cases htn : toolNameOf ((objGet kvs "tool_name").getD .null) with
    | none =>
      exact Or.inr (Or.inl ⟨(objGet kvs "task_id").getD .null,
        notFoundMsg ((objGet kvs "tool_name").getD .null),
        by simp [execute_task, pyGet, pyGetD, hh, htn]⟩)
    | some name =>
      cases h : executeTaskTry env (.obj kvs) name ((objGet kvs "sub_task").getD (.str "")) cache with
      | ok p =>
        exact Or.inl ⟨p.1, p.2, by simp [execute_task, pyGet, pyGetD, hh, htn, h]⟩
      | error e =>
        exact Or.inr (Or.inl ⟨(objGet kvs "task_id").getD .null, e,
          by simp [execute_task, pyGet, pyGetD, hh, htn, h]⟩)
  · simp only [Bool.not_eq_true] at hh
    exact Or.inr (Or.inr ⟨unhashableMsg ((objGet kvs "tool_name").getD .null),
      by simp [execute_task, pyGet, pyGetD, hh]⟩)

/-- C7 (amended).  Within one run a Result Cache entry is written exactly
when a dispatch of its task succeeds: each successful execute_task call
performs exactly one write, under the identifier the outcome carries, and
a failed dispatch — unknown tool or caught exception — writes nothing.
(The unamended claim fails in both directions: a failing task writes no
entry at all, and a task dispatched both as a dependency and again in
plan order writes its entry twice — see the counterexample.) -/
theorem cache_write_discipline (env : OSEnv) (kvs : List (String × JVal)) (cache : ResultsCache)
    (o : Outcome) (c2 : ResultsCache)
    (h : execute_task env (.obj kvs) cache = .ok (o, c2)) :
    (∃ tid r, o = .ok tid r ∧ c2 = (tid, r) :: cache) ∨
    (∃ tid e, o = .err tid e ∧ c2 = cache) := by
  rcases execute_task_cases env kvs cache with ⟨tid, r, hh⟩ | ⟨tid, e, hh⟩ | ⟨e, hh⟩
  · have := h.symm.trans hh
    simp only [Except.ok.injEq, Prod.mk.injEq] at this
    exact Or.inl ⟨tid, r, this.1, this.2⟩
  · have := h.symm.trans hh
    simp only [Except.ok.injEq, Prod.mk.injEq] at this
    exact Or.inr ⟨tid, e, this.1, this.2⟩
  · exact absurd (h.symm.trans hh) (by simp)

/-- The value build_query produces under env0 for a given sub task. -/
def bqResult (sub : String) : JVal :=
  .obj [("query", .obj [("bool", .obj [("filter", .arr [
    .obj [("range", .obj [("@timestamp", .obj [("gte", .str "START"), ("lte", .str "NOW")])])],
    .obj [("query_string", .obj [("query", .str sub)])]])])])]

/-- C7 witness: the amended write discipline at a concrete successful
build_query dispatch. -/
theorem cache_write_discipline_witness :
    (∃ tid r, Outcome.ok (.str "1") (bqResult "a") = Outcome.ok tid r ∧
        ((JVal.str "1", bqResult "a") :: ([] : ResultsCache)) = (tid, r) :: []) ∨
    (∃ tid e, Outcome.ok (.str "1") (bqResult "a") = .err tid e ∧
        ((JVal.str "1", bqResult "a") :: ([] : ResultsCache)) = []) :=
  cache_write_discipline env0
    [("task_id", .str "1"), ("sub_task", .str "a"), ("tool_name", .str "build_query")] []
    (.ok (.str "1") (bqResult "a")) [(.str "1", bqResult "a")] (by decide)

/-- A single-task plan whose task declares an unregistered tool. -/
def failTask : JVal := .obj [("task_id", .str "1"), ("tool_name", .str "nope")]

/-- A plan in which task 2 precedes its dependency task 1, so task 1 is
dispatched once during dependency resolution and again in plan order. -/
def dupRunTasks : List JVal := [
  .obj [("task_id", .str "2"), ("sub_task", .str "b"), ("tool_name", .str "build_query"),
        ("dependent_on_tasks", .arr [.str "1"])],
  .obj [("task_id", .str "1"), ("sub_task", .str "a"), ("tool_name", .str "build_query")]]

/-- C7 counterexample.  Against the claim that the cache entry is written
exactly once when the Task Dispatcher completes the task whether the
outcome is a success or a failure: a plan whose only task fails leaves
zero writes under its identifier, and the out-of-order plan writes the
entry of task 1 twice (once as a dependency of task 2, once in plan
order), so the entry is also mutated after its first write. -/
theorem cache_write_not_once_cex :
    (runLoop env0 [failTask] [failTask] [] []).map
        (fun p => cacheWriteCount p.1 (.str "1")) = .ok 0 ∧
    (runLoop env0 dupRunTasks dupRunTasks [] []).map
        (fun p => cacheWriteCount p.1 (.str "1")) = .ok 2 :=
  ⟨by decide, by decide⟩

/-- Under hashable identifiers the dependency-lookup comprehension never
raises and resolves each identifier through the visible cache mapping. -/
theorem cacheGetAll_of_hashable (cache : ResultsCache) (ds : List JVal)
    (h : ∀ d ∈ ds, hashable d = true) :
    cacheGetAll cache ds = .ok (ds.map (cacheGet cache)) := by
  induction ds with
  | nil => rfl
  | cons d rest ih =>
    have hd : hashable d = true := h d (List.mem_cons_self d rest)
    have hr := ih (fun x hx => h x (List.mem_cons_of_mem d hx))
    simp [cacheGetAll, cacheGetE, hd, hr]

/-- C10 (amended).  For every get_agent_data task whose declared
dependency identifiers are hashable and whose task identifier is
hashable, when the dependencies yield no extractable agent name the
dispatcher still invokes the tool with agent_name=None; the tool returns
an error-marker dict instead of raising, execute_task reports it as a
success outcome, the marker is written to the Result Cache, and an
aggregation of that outcome carries the marker under the task
identifier.  (The unamended claim also covered unhashable dependency
identifiers; there the cache-lookup comprehension raises TypeError and
the dispatch becomes a failure outcome — see the counterexample.) -/
theorem agent_lookup_error_marker_success (env : OSEnv) (kvs : List (String × JVal))
    (cache : ResultsCache) (tid : JVal) (deps : List JVal)
    (htool : objGet kvs "tool_name" = some (.str "get_agent_data"))
    (htid : objGet kvs "task_id" = some tid)
    (htidh : hashable tid = true)
    (hdeps : pyIter (if truthy ((objGet kvs "dependent_on_tasks").getD .null) then
        (objGet kvs "dependent_on_tasks").getD .null else .arr []) = .ok deps)
    (hdh : ∀ d ∈ deps, hashable d = true)
    (hname : extractAgentName (deps.map (cacheGet cache)) = .null) :
    ∃ m, execute_task env (.obj kvs) cache =
        .ok (.ok tid (.obj [("error", .str m)]), (tid, .obj [("error", .str m)]) :: cache) ∧
      aggregate [Outcome.ok tid (.obj [("error", .str m)])] = [(tid, .obj [("error", .str m)])] := by
  have hall : cacheGetAll cache deps = .ok (deps.map (cacheGet cache)) :=
    cacheGetAll_of_hashable cache deps hdh
  have hbr : agentBranch env (.obj kvs) cache = .ok (get_agent_data env .null .null) := by
    simp [agentBranch, pyGet, pyGetD, hdeps, hall, hname]
  have hmark : ∃ m, get_agent_data env .null .null = .obj [("error", .str m)] := by
    cases hc : env.clientUp with
    | false => exact ⟨"OpenSearch client not initialized", by simp [get_agent_data, hc]⟩
    | true => exact ⟨"agent_id or agent_name required", by simp [get_agent_data, hc, truthy]⟩
  obtain ⟨m, hmark⟩ := hmark
  refine ⟨m, ?_, by simp [aggregate, setAssoc]⟩
  simp [execute_task, executeTaskTry, toolResult, pyGet, pyGetD, pyIndexStr,
    toolNameOf, hashable_str, htool, htid, htidh, hbr, hmark, safe_json]

/-- C10 counterexample.  A get_agent_data task whose only declared
dependency identifier is a list yields no extractable agent name, yet
the dispatcher does not invoke the tool with agent_name=None: the
lookup comprehension over the dependencies hashes the identifier and
raises TypeError, which the try converts into a failure outcome with no
tool invocation and no cache write. -/
theorem agent_dep_unhashable_fails :
    execute_task env0
        (.obj [("task_id", .str "t"), ("tool_name", .str "get_agent_data"),
               ("dependent_on_tasks", .arr [.arr [.str "d"]])]) [] =
      .ok (.err (.str "t") "TypeError: unhashable type: \x27list\x27", []) := by
  decide

/-- C10 witness: a get_agent_data task whose single dependency resolved
to a number (not a list of hits), under the uninitialized-client
environment. -/
theorem agent_lookup_error_marker_witness :
    ∃ m, execute_task env0
        (.obj [("task_id", .str "t"), ("tool_name", .str "get_agent_data"),
               ("dependent_on_tasks", .arr [.str "d"])])
        [(.str "d", .num 5)] =
      .ok (.ok (.str "t") (.obj [("error", .str m)]),
           (.str "t", .obj [("error", .str m)]) :: [(.str "d", .num 5)]) ∧
      aggregate [Outcome.ok (.str "t") (.obj [("error", .str m)])] =
        [(.str "t", .obj [("error", .str m)])] :=
  agent_lookup_error_marker_success env0
    [("task_id", .str "t"), ("tool_name", .str "get_agent_data"),
     ("dependent_on_tasks", .arr [.str "d"])]
    [(.str "d", .num 5)] (.str "t") [.str "d"]
    (by decide) (by decide) (by decide) (by decide) (by decide) (by decide)

/-- A message mentions the "not found" condition. -/
def ContainsNotFound (s : String) : Prop :=
  ∃ a b, s = a ++ ("not found" ++ b)

theorem notFoundMsg_contains (v : JVal) : ContainsNotFound (notFoundMsg v) :=
  ⟨"❌ Tool \x27" ++ pyStr v ++ "\x27 ", " or undefined.", by
    simp only [notFoundMsg, String.append_assoc]
    rfl⟩

/-- The end-to-end scenario plan of the spec: a build_query task followed
by a task declaring the unregistered tool name "nonexistent_tool". -/
def c6plan : JVal := .obj [("plans", .arr [
  .obj [("task_id", .str "1"), ("sub_task", .str "q"), ("tool_name", .str "build_query"),
        ("dependent_on_tasks", .arr [])],
  .obj [("task_id", .str "2"), ("sub_task", .str "x"), ("tool_name", .str "nonexistent_tool"),
        ("dependent_on_tasks", .arr [])]])]

/-- C6 (amended).  A task whose declared tool name is hashable yet not
in TOOL_MAPPING invokes nothing: execute_task returns a failure outcome
carrying the task_id and a message containing "not found", with the
Result Cache untouched (the conclusion does not depend on the backend
environment, so no capability is consulted).  In the end-to-end scenario
the run still completes with status True, the other task executes, and
the aggregated map has no entry for the unknown-tool task.  (The
unamended claim also covered list- or dict-valued tool names, which are
equally unregistered; there TOOL_MAPPING.get raises TypeError before the
try block and the exception propagates out of the run — see the
counterexample.) -/
theorem unknown_tool_nonfatal :
    (∀ (env : OSEnv) (kvs : List (String × JVal)) (cache : ResultsCache),
      hashable ((objGet kvs "tool_name").getD .null) = true →
      toolNameOf ((objGet kvs "tool_name").getD .null) = none →
      execute_task env (.obj kvs) cache =
        .ok (.err ((objGet kvs "task_id").getD .null)
          (notFoundMsg ((objGet kvs "tool_name").getD .null)), cache) ∧
        ContainsNotFound (notFoundMsg ((objGet kvs "tool_name").getD .null))) ∧
    (run_execution_plan env0 c6plan =
        .ok (.completed
          [.ok (.str "1") (bqResult "q"),
           .err (.str "2") (notFoundMsg (.str "nonexistent_tool"))]
          [(.str "1", bqResult "q")]) ∧
      ContainsNotFound (notFoundMsg (.str "nonexistent_tool"))) := by
  refine ⟨?_, by decide, notFoundMsg_contains _⟩
  intro env kvs cache hh htn
  exact ⟨by simp [execute_task, pyGet, pyGetD, hh, htn], notFoundMsg_contains _⟩

/-- C6 counterexample.  A task whose declared tool name is the list
["x"] is not in the tool registry, yet execute_task does not return a
"not found" failure outcome: TOOL_MAPPING.get hashes the declared name
before the try block, so the dispatch raises TypeError, and a run whose
plan contains that task aborts with the propagated exception instead of
completing with the other outcomes. -/
theorem unknown_tool_unhashable_raises :
    toolNameOf (.arr [.str "x"]) = none ∧
    execute_task env0 (.obj [("task_id", .str "1"), ("tool_name", .arr [.str "x"])]) [] =
      .error "TypeError: unhashable type: \x27list\x27" ∧
    run_execution_plan env0 (.obj [("plans", .arr
        [.obj [("task_id", .str "1"), ("tool_name", .arr [.str "x"])]])]) =
      .error "TypeError: unhashable type: \x27list\x27" :=
  ⟨by decide, by decide, by decide⟩

/-- C6 witness: a concrete task declaring the unregistered tool "nope". -/
theorem unknown_tool_nonfatal_witness :
    execute_task env0 (.obj [("task_id", .str "9"), ("tool_name", .str "nope")]) [] =
      .ok (.err (.str "9") (notFoundMsg (.str "nope")), []) ∧
    ContainsNotFound (notFoundMsg (.str "nope")) :=
  unknown_tool_nonfatal.1 env0 [("task_id", .str "9"), ("tool_name", .str "nope")] []
    (by decide) (by decide)

/-- The tail of the search branch as the spec describes it: refine the
base predicate for the tool, unwrap a single-key query wrapper, invoke
the tool with the fixed "2d" window; an exception inside refinement
surfaces as the raised message. -/
def searchPipeline (env : OSEnv) (name : String) (base : JVal) : Except String JVal :=
  match refine_query_for_tool base name with
  | .error e => .error e
  | .ok refined => .ok (invokeSearchTool env name (postUnwrap refined) "2d")

/-- How the dispatcher turns the pipeline result into an outcome: a
success is returned and written to the cache, a caught exception becomes
a failure outcome with the cache untouched. -/
def pipelineOutcome (tid : JVal) (cache : ResultsCache) (r : Except String JVal) :
    Outcome × ResultsCache :=
  match r with
  | .ok v => (.ok tid v, (tid, v) :: cache)
  | .error e => (.err tid e, cache)

/-- The freshly synthesized base query of the fallback path: build_query
on the sub-goal text with the default "2d" window, with a top-level
"query" field unwrapped.  (build_query never raises on the fixed "2d"
range, so the error branch is unreachable.) -/
def freshBaseQuery (env : OSEnv) (subV : JVal) : JVal :=
  match build_query env subV "2d" with
  | .ok built => unwrapQuery built
  | .error _ => .null

theorem truthy_arr_cons (x : JVal) (xs : List JVal) : truthy (.arr (x :: xs)) = true := by
  simp [truthy]

theorem build_query_2d (env : OSEnv) (q : JVal) :
    build_query env q "2d" = .ok (.obj [("query", .obj [("bool", .obj [("filter", .arr [
      .obj [("range", .obj [("@timestamp", .obj [("gte", .str (env.startIso 2)),
        ("lte", .str env.nowIso)])])],
      .obj [("query_string", .obj [("query", q)])]])])])]) := rfl

theorem execute_task_search_eq (env : OSEnv) (kvs : List (String × JVal)) (cache : ResultsCache)
    (name : String) (tid base : JVal)
    (hmem : name = "search_raw_logs" ∨ name = "search_alerts" ∨ name = "search_vulnerabilities")
    (htool : objGet kvs "tool_name" = some (.str name))
    (htid : objGet kvs "task_id" = some tid)
    (htidh : hashable tid = true)
    (hsb : searchBranch env (.obj kvs) ((objGet kvs "sub_task").getD (.str "")) name cache =
      searchPipeline env name base) :
    execute_task env (.obj kvs) cache =
      .ok (pipelineOutcome tid cache (searchPipeline env name base)) := by
  have htn : toolNameOf (.str name) = some name := by
    rcases hmem with rfl | rfl | rfl <;> rfl
  have htr : toolResult env (.obj kvs) name ((objGet kvs "sub_task").getD (.str "")) cache =
      searchPipeline env name base := by
    rcases hmem with rfl | rfl | rfl <;> simpa [toolResult] using hsb
  cases hr : searchPipeline env name base with
  | ok v =>
    simp [execute_task, executeTaskTry, pyGet, pyGetD, hashable_str, htool, htn, htr, hr,
      pipelineOutcome, safe_json, pyIndexStr_obj, htid, htidh]
  | error e =>
    simp [execute_task, executeTaskTry, pyGet, pyGetD, hashable_str, htool, htn, htr, hr,
      pipelineOutcome, safe_json, pyIndexStr_obj, htid, htidh]

/-- C4 (amended).  For every search-style task with a hashable task
identifier and a declared first dependency that is a hashable
identifier: when the dependency yields no usable base query (absent from
the cache — which also covers an identifier no task of the plan ever
produced — or normalizing its cached value gives a falsy result),
execute_task does not fail the task but synthesizes a fresh base by
calling build_query with the sub-goal text and the default "2d" window,
unwraps its "query" field, refines it and invokes the search tool;
conversely, when the cached dependency result is a dict whose
normalization is truthy, that normalized value is used as the base query
instead of a fresh synthesis.  (The unamended claim also covered
unhashable first dependencies, which are certainly absent from the
cache; there the lookup raises TypeError inside the try and the task
fails instead of falling back — see the counterexample.) -/
theorem search_base_query_fallback :
    (∀ (env : OSEnv) (kvs : List (String × JVal)) (cache : ResultsCache) (name : String)
       (tid d : JVal) (rest : List JVal),
      (name = "search_raw_logs" ∨ name = "search_alerts" ∨ name = "search_vulnerabilities") →
      objGet kvs "tool_name" = some (.str name) →
      objGet kvs "task_id" = some tid →
      hashable tid = true →
      objGet kvs "dependent_on_tasks" = some (.arr (d :: rest)) →
      truthy d = true →
      hashable d = true →
      truthy (unwrapQuery (cacheGet cache d)) = false →
      execute_task env (.obj kvs) cache =
        .ok (pipelineOutcome tid cache (searchPipeline env name
          (freshBaseQuery env ((objGet kvs "sub_task").getD (.str "")))))) ∧
    (∀ (env : OSEnv) (kvs : List (String × JVal)) (cache : ResultsCache) (name : String)
       (tid d : JVal) (rest : List JVal) (pkvs : List (String × JVal)),
      (name = "search_raw_logs" ∨ name = "search_alerts" ∨ name = "search_vulnerabilities") →
      objGet kvs "tool_name" = some (.str name) →
      objGet kvs "task_id" = some tid →
      hashable tid = true →
      objGet kvs "dependent_on_tasks" = some (.arr (d :: rest)) →
      truthy d = true →
      hashable d = true →
      cacheGet cache d = .obj pkvs →
      truthy (unwrapQuery (.obj pkvs)) = true →
      execute_task env (.obj kvs) cache =
        .ok (pipelineOutcome tid cache (searchPipeline env name (unwrapQuery (.obj pkvs))))) := by
  constructor
  · intro env kvs cache name tid d rest hmem htool htid htidh hdeps hd hdh hbase
    refine execute_task_search_eq env kvs cache name tid _ hmem htool htid htidh ?_
    simp [searchBranch, pyGet, pyGetD, hdeps, truthy_arr_cons, pyLen, pyIndex0, hd, hdh,
      cacheGetE, hbase, build_query_2d, freshBaseQuery, searchPipeline]
  · intro env kvs cache name tid d rest pkvs hmem htool htid htidh hdeps hd hdh hprev hbase
    refine execute_task_search_eq env kvs cache name tid _ hmem htool htid htidh ?_
    simp [searchBranch, pyGet, pyGetD, hdeps, truthy_arr_cons, pyLen, pyIndex0, hd, hdh,
      cacheGetE, hprev, hbase, searchPipeline]

/-- C4 witness: a search_raw_logs task whose dependency "9" is absent
from the cache (fresh synthesis), and the same task against a cache where
"9" holds a wrapped query dict (cached base used). -/
theorem search_base_query_fallback_witness :
    (execute_task env0
        (.obj [("task_id", .str "1"), ("tool_name", .str "search_raw_logs"),
               ("sub_task", .str "s"), ("dependent_on_tasks", .arr [.str "9"])]) [] =
      .ok (pipelineOutcome (.str "1") []
        (searchPipeline env0 "search_raw_logs" (freshBaseQuery env0 (.str "s"))))) ∧
    (execute_task env0
        (.obj [("task_id", .str "1"), ("tool_name", .str "search_raw_logs"),
               ("sub_task", .str "s"), ("dependent_on_tasks", .arr [.str "9"])])
        [(.str "9", .obj [("query", .obj [("bool", .obj [("must", .arr [])])])])] =
      .ok (pipelineOutcome (.str "1")
        [(.str "9", .obj [("query", .obj [("bool", .obj [("must", .arr [])])])])]
        (searchPipeline env0 "search_raw_logs"
          (unwrapQuery (.obj [("query", .obj [("bool", .obj [("must", .arr [])])])]))))) :=
  ⟨search_base_query_fallback.1 env0
      [("task_id", .str "1"), ("tool_name", .str "search_raw_logs"),
       ("sub_task", .str "s"), ("dependent_on_tasks", .arr [.str "9"])]
      [] "search_raw_logs" (.str "1") (.str "9") [] (Or.inl rfl)
      (by decide) (by decide) (by decide) (by decide) (by decide) (by decide) (by decide),
   search_base_query_fallback.2 env0
      [("task_id", .str "1"), ("tool_name", .str "search_raw_logs"),
       ("sub_task", .str "s"), ("dependent_on_tasks", .arr [.str "9"])]
      [(.str "9", .obj [("query", .obj [("bool", .obj [("must", .arr [])])])])]
      "search_raw_logs" (.str "1") (.str "9") []
      [("query", .obj [("bool", .obj [("must", .arr [])])])] (Or.inl rfl)
      (by decide) (by decide) (by decide) (by decide) (by decide) (by decide)
      (by decide) (by decide)⟩

/-- C4 counterexample.  A search task whose first declared dependency is
the (truthy) list ["9"] — an identifier certainly absent from the Result
Cache — does not fall back to synthesizing a fresh query: the cache
lookup hashes the identifier inside the try, raising TypeError, and the
dispatch becomes a failure outcome instead of a search invocation. -/
theorem search_dep_unhashable_fails :
    execute_task env0
        (.obj [("task_id", .str "1"), ("tool_name", .str "search_raw_logs"),
               ("sub_task", .str "s"), ("dependent_on_tasks", .arr [.arr [.str "9"]])]) [] =
      .ok (.err (.str "1") "TypeError: unhashable type: \x27list\x27", []) := by
  decide

/-- Shape of a dependency declaration the runner can iterate without
raising: absent, falsy (None, empty containers, 0, False), or a list of
hashable identifiers (an unhashable element raises TypeError at the
`dep_id not in results_cache` membership test of line 206). -/
def goodDeps : Option JVal → Bool
  | none => true
  | some v =>
    if truthy v then (match v with | .arr ds => ds.all hashable | _ => false) else true

/-- A task the runner can process without raising: a dict that carries a
task_id (read during the dependency scan of line 207), declares a
hashable tool name (TOOL_MAPPING.get hashes it before the try block of
execute_task), and whose declared dependencies are absent, falsy or a
list of hashable identifiers. -/
def goodTask : JVal → Bool
  | .obj kvs => (objGet kvs "task_id").isSome
      && hashable ((objGet kvs "tool_name").getD .null)
      && goodDeps (objGet kvs "dependent_on_tasks")
  | _ => false

theorem findDepTask_total (tasks : List JVal) (d : JVal)
    (hg : ∀ t ∈ tasks, goodTask t = true) :
    ∃ r, findDepTask tasks d = .ok r ∧ (∀ t, r = some t → t ∈ tasks) := by
  induction tasks with
  | nil => exact ⟨none, rfl, by simp⟩
  | cons t rest ih =>
    have hgt := hg t (by simp)
    cases t with
    | obj kvs =>
      simp only [goodTask, Bool.and_eq_true] at hgt
      cases hx : objGet kvs "task_id" with
      | none => rw [hx] at hgt; simp at hgt| some x =>
        obtain ⟨r, hr, hmem⟩ := ih (fun t ht => hg t (by simp [ht]))
        by_cases he : x = d
        · refine ⟨some (.obj kvs), by simp [findDepTask, pyIndexStr_obj, hx, he], ?_⟩
          intro t ht
          simp only [Option.some.injEq] at ht
          simp [← ht]
        · exact ⟨r, by simp [findDepTask, pyIndexStr_obj, hx, he, hr],
            fun t ht => List.mem_cons_of_mem _ (hmem t ht)⟩
    | null => simp [goodTask] at hgt
    | bool b => simp [goodTask] at hgt
    | num n => simp [goodTask] at hgt
    | str s => simp [goodTask] at hgt
    | arr xs => simp [goodTask] at hgt

theorem resolveDeps_total (env : OSEnv) (allTasks : List JVal)
    (hg : ∀ t ∈ allTasks, goodTask t = true) :
    ∀ (deps : List JVal), (∀ d ∈ deps, hashable d = true) →
      ∀ (cache : ResultsCache) (trace : List Outcome),
      ∃ c2 δ, resolveDeps env allTasks deps cache trace = .ok (c2, trace ++ δ) := by
  intro deps
  induction deps with
  | nil => intro _ cache trace; exact ⟨cache, [], by simp [resolveDeps]⟩
  | cons d rest ih =>
    intro hdh cache trace
    have hd : hashable d = true := hdh d (by simp)
    have ih2 := ih (fun x hx => hdh x (by simp [hx]))
    by_cases hc : cacheHas cache d
    · obtain ⟨c2, δ, h⟩ := ih2 cache trace
      exact ⟨c2, δ, by simp [resolveDeps, cacheHasE, hd, hc, h]⟩
    · obtain ⟨r, hr, hmem⟩ := findDepTask_total allTasks d hg
      cases r with
      | none =>
        obtain ⟨c2, δ, h⟩ := ih2 cache trace
        exact ⟨c2, δ, by simp [resolveDeps, cacheHasE, hd, hc, hr, h]⟩
      | some dt =>
        have hgdt := hg dt (hmem dt rfl)
        cases dt with
        | obj kvs =>
          have hgdt2 := hgdt
          simp only [goodTask, Bool.and_eq_true] at hgdt2
          obtain ⟨o, c1, he, _⟩ := execute_task_total_id env kvs cache hgdt2.1.2
          obtain ⟨c2, δ, h⟩ := ih2 c1 (trace ++ [o])
          exact ⟨c2, [o] ++ δ, by simp [resolveDeps, cacheHasE, hd, hc, hr, he, h]⟩
        | null => simp [goodTask] at hgdt
        | bool b => simp [goodTask] at hgdt
        | num n => simp [goodTask] at hgdt
        | str s => simp [goodTask] at hgdt
        | arr xs => simp [goodTask] at hgdt

theorem runLoop_total (env : OSEnv) (allTasks : List JVal)
    (hg : ∀ t ∈ allTasks, goodTask t = true) :
    ∀ (pending : List JVal), (∀ t ∈ pending, t ∈ allTasks) →
      ∀ (cache : ResultsCache) (trace : List Outcome),
      ∃ c2 δ, runLoop env allTasks pending cache trace = .ok (c2, trace ++ δ) ∧
        ∀ t ∈ pending, ∃ o ∈ δ, outcomeId o = taskIdVal t := by
  intro pending
  induction pending with
  | nil => intro _ cache trace; exact ⟨cache, [], by simp [runLoop], by simp⟩
  | cons task rest ih =>
    intro hp cache trace
    have hgt := hg task (hp task (by simp))
    cases task with
    | obj kvs =>
      have hgt2 := hgt
      simp only [goodTask, Bool.and_eq_true] at hgt2
      have hiter : ∃ ds, pyIter (if truthy ((objGet kvs "dependent_on_tasks").getD (.arr []))
          then (objGet kvs "dependent_on_tasks").getD (.arr []) else .arr []) = .ok ds ∧
          ∀ d ∈ ds, hashable d = true := by
        cases hdv : objGet kvs "dependent_on_tasks" with
        | none => exact ⟨[], by simp [pyIter, truthy], by simp⟩
        | some v =>
          have hgd := hgt2.2
          rw [hdv] at hgd
          simp only [goodDeps] at hgd
          by_cases ht : truthy v = true
          · rw [if_pos ht] at hgd
            cases v with
            | arr xs =>
              refine ⟨xs, by simp [ht, pyIter], ?_⟩
              simpa using hgd
            | null => simp at hgd
            | bool b => simp at hgd
            | num n => simp at hgd
            | str s => simp at hgd
            | obj o => simp at hgd
          · simp only [Bool.not_eq_true] at ht
            exact ⟨[], by simp [ht, pyIter], by simp⟩
      obtain ⟨ds, hds, hdsh⟩ := hiter
      obtain ⟨c1, δ1, hrd⟩ := resolveDeps_total env allTasks hg ds hdsh cache trace
      obtain ⟨o, c2, he, hid⟩ := execute_task_total_id env kvs c1 hgt2.1.2
      obtain ⟨c3, δ2, hrl, hrest⟩ := ih (fun t ht => hp t (by simp [ht])) c2 ((trace ++ δ1) ++ [o])
      refine ⟨c3, δ1 ++ ([o] ++ δ2), ?_, ?_⟩
      · have : runLoop env allTasks (JVal.obj kvs :: rest) cache trace =
            runLoop env allTasks rest c2 ((trace ++ δ1) ++ [o]) := by
          simp [runLoop, pyGet, pyGetD, hds, hrd, he]
        rw [this, hrl]
        simp
      · intro t ht
        rcases List.mem_cons.mp ht with rfl | htr
        · exact ⟨o, by simp, hid⟩
        · obtain ⟨o2, ho2, hid2⟩ := hrest t htr
          exact ⟨o2, by simp [ho2], hid2⟩
    | null => simp [goodTask] at hgt
    | bool b => simp [goodTask] at hgt
    | num n => simp [goodTask] at hgt
    | str s => simp [goodTask] at hgt
    | arr xs => simp [goodTask] at hgt

theorem mem_setAssoc {k v : JVal} {p : JVal × JVal} :
    ∀ {m : List (JVal × JVal)}, p ∈ setAssoc m k v → p = (k, v) ∨ p ∈ m := by
  intro m
  induction m with
  | nil =>
    intro h
    simp only [setAssoc, List.mem_singleton] at h
    exact Or.inl h
  | cons q rest ih =>
    obtain ⟨k0, v0⟩ := q
    intro h
    by_cases he : k0 = k
    · subst he
      simp only [setAssoc, if_true, eq_self_iff_true, List.mem_cons] at h
      rcases h with h | h
      · exact Or.inl h
      · exact Or.inr (List.mem_cons_of_mem _ h)
    · simp only [setAssoc, if_neg he, List.mem_cons] at h
      rcases h with h | h
      · exact Or.inr (by simp [h])
      · rcases ih h with h2 | h2
        · exact Or.inl h2
        · exact Or.inr (List.mem_cons_of_mem _ h2)

theorem mem_aggregate_fold (tr : List Outcome) :
    ∀ (m : List (JVal × JVal)) (p : JVal × JVal),
      p ∈ tr.foldl (fun m o =>
        match o with
        | .ok tid r => setAssoc m tid r
        | .err _ _ => m) m →
      (∃ r, Outcome.ok p.1 r ∈ tr) ∨ p ∈ m := by
  induction tr with
  | nil => intro m p h; exact Or.inr h
  | cons o rest ih =>
    intro m p h
    simp only [List.foldl_cons] at h
    rcases ih _ p h with ⟨r, hr⟩ | hm
    · exact Or.inl ⟨r, by simp [hr]⟩
    · cases o with
      | ok tid r =>
        rcases mem_setAssoc hm with he | hm2
        · left
          refine ⟨r, ?_⟩
          rw [he]
          exact List.mem_cons_self _ _
        · exact Or.inr hm2
      | err tid e => exact Or.inr hm

/-- Every binding of the aggregated map comes from a trace record that
carries a result. -/
theorem mem_aggregate {tr : List Outcome} {p : JVal × JVal} (h : p ∈ aggregate tr) :
    ∃ r, Outcome.ok p.1 r ∈ tr := by
  rcases mem_aggregate_fold tr [] p h with h2 | h2
  · exact h2
  · simp at h2

/-- C1 (amended).  For every plan dict whose "plans" member is a list of
well-formed tasks (each a dict carrying a task_id, declaring a hashable
tool name, with dependencies absent, falsy or a list of hashable
identifiers), run_execution_plan completes the loop over all tasks and
returns the status-True completed result, no matter how many individual
task outcomes are failures, and its aggregated_results map holds entries
only for trace records that carry a result.  (The unamended claim,
quantified over every plan carrying a "plans" task sequence, fails: a
listed task without a task_id makes the dependency scan raise KeyError —
see the counterexample — and a list-valued tool name or dependency
identifier likewise raises TypeError out of the loop when hashed.) -/
theorem run_best_effort_wellformed (env : OSEnv) (plan : JVal) (kvs : List (String × JVal))
    (tasks : List JVal) (hp : plan = .obj kvs) (hpl : objGet kvs "plans" = some (.arr tasks))
    (hg : ∀ t ∈ tasks, goodTask t = true) :
    ∃ trace, run_execution_plan env plan = .ok (.completed trace (aggregate trace)) ∧
      ∀ p ∈ aggregate trace, ∃ r, Outcome.ok p.1 r ∈ trace := by
  subst hp
  have htr : truthy (.obj kvs) = true := by
    cases kvs with
    | nil => simp [objGet] at hpl
    | cons a l => simp [truthy]
  obtain ⟨c2, δ, hrl, _⟩ := runLoop_total env tasks hg tasks (fun t ht => ht) [] []
  refine ⟨δ, ?_, fun p hp2 => mem_aggregate hp2⟩
  simp only [List.nil_append] at hrl
  simp [run_execution_plan, htr, pyContains, hpl, pyIndexStr_obj, pyIter, hrl]

/-- A well-formed two-task plan whose first task fails (unknown tool) and
whose second succeeds. -/
def mixedPlanTasks : List JVal := [
  .obj [("task_id", .str "1"), ("tool_name", .str "nonexistent_tool")],
  .obj [("task_id", .str "2"), ("sub_task", .str "x"), ("tool_name", .str "build_query")]]

/-- C1 witness: the amended theorem applied to a plan whose first task
fails and whose second succeeds. -/
theorem run_best_effort_witness :
    (∀ t ∈ mixedPlanTasks, goodTask t = true) ∧
    ∃ trace, run_execution_plan env0 (.obj [("plans", .arr mixedPlanTasks)]) =
        .ok (.completed trace (aggregate trace)) ∧
      ∀ p ∈ aggregate trace, ∃ r, Outcome.ok p.1 r ∈ trace :=
  ⟨by decide,
   run_best_effort_wellformed env0 (.obj [("plans", .arr mixedPlanTasks)])
     [("plans", .arr mixedPlanTasks)] mixedPlanTasks rfl rfl (by decide)⟩

/-- A plan that carries a "plans" task sequence in which the second task
lacks a task_id while the first declares an unresolved dependency. -/
def noIdPlan : JVal := .obj [("plans", .arr [
  .obj [("task_id", .str "1"), ("sub_task", .str "a"), ("tool_name", .str "build_query"),
        ("dependent_on_tasks", .arr [.str "2"])],
  .obj [("sub_task", .str "b"), ("tool_name", .str "build_query")]])]

/-- C1 counterexample.  noIdPlan contains a "plans" task sequence, yet
run_execution_plan does not complete the loop with a status-True result:
scanning the plan for the unresolved dependency "2" evaluates
t["task_id"] on the second task, which raises KeyError out of the run. -/
theorem run_raises_on_missing_task_id :
    objGet [("plans", .arr [
        .obj [("task_id", .str "1"), ("sub_task", .str "a"), ("tool_name", .str "build_query"),
              ("dependent_on_tasks", .arr [.str "2"])],
        .obj [("sub_task", .str "b"), ("tool_name", .str "build_query")]])] "plans" =
      some (.arr [
        .obj [("task_id", .str "1"), ("sub_task", .str "a"), ("tool_name", .str "build_query"),
              ("dependent_on_tasks", .arr [.str "2"])],
        .obj [("sub_task", .str "b"), ("tool_name", .str "build_query")]]) ∧
    run_execution_plan env0 noIdPlan = .error "KeyError: task_id" :=
  ⟨by decide, by decide⟩

/-- C2 (amended).  Any exception raised inside the try block of a task
dispatch — including one raised by the tool pipeline — is caught and
converted into a failure outcome carrying the task_id and the message,
with the cache untouched, instead of propagating; and in every plan of
well-formed tasks (dicts with a task_id, a hashable tool name and
dependencies absent, falsy or a list of hashable identifiers) the loop
dispatches every task regardless of such caught failures, so every task
of the plan has an outcome bearing its identifier in the returned trace.
(The unamended claim, quantified over arbitrary plans, fails: when a
later entry of the task sequence is not a dict the loop raises before
reaching it — see the counterexample — and a task with a list-valued
tool name or dependency identifier raises TypeError outside the try,
aborting the run before later tasks are reached.) -/
theorem dispatcher_catches_and_trace_complete :
    (∀ (env : OSEnv) (kvs : List (String × JVal)) (cache : ResultsCache) (name : String)
       (e : String),
      toolNameOf ((objGet kvs "tool_name").getD .null) = some name →
      executeTaskTry env (.obj kvs) name ((objGet kvs "sub_task").getD (.str "")) cache =
        .error e →
      execute_task env (.obj kvs) cache =
        .ok (.err ((objGet kvs "task_id").getD .null) e, cache)) ∧
    (∀ (env : OSEnv) (kvs : List (String × JVal)) (tasks : List JVal),
      objGet kvs "plans" = some (.arr tasks) →
      (∀ t ∈ tasks, goodTask t = true) →
      ∃ trace, run_execution_plan env (.obj kvs) = .ok (.completed trace (aggregate trace)) ∧
        ∀ t ∈ tasks, ∃ o ∈ trace, outcomeId o = taskIdVal t) := by
  constructor
  · intro env kvs cache name e htn h
    have hh : hashable ((objGet kvs "tool_name").getD .null) = true :=
      toolNameOf_some_hashable htn
    simp [execute_task, pyGet, pyGetD, hh, htn, h]
  · intro env kvs tasks hpl hg
    have htr : truthy (.obj kvs) = true := by
      cases kvs with
      | nil => simp [objGet] at hpl
      | cons a l => simp [truthy]
    obtain ⟨c2, δ, hrl, hall⟩ := runLoop_total env tasks hg tasks (fun t ht => ht) [] []
    refine ⟨δ, ?_, hall⟩
    simp only [List.nil_append] at hrl
    simp [run_execution_plan, htr, pyContains, hpl, pyIndexStr_obj, pyIter, hrl]

/-- C2 witness: a search_alerts task whose cached dependency value makes
refinement raise AttributeError (caught, cache untouched), plus the
trace-completeness conclusion on the mixed two-task plan. -/
theorem dispatcher_catches_witness :
    (execute_task env0
        (.obj [("task_id", .str "1"), ("tool_name", .str "search_alerts"),
               ("sub_task", .str "s"), ("dependent_on_tasks", .arr [.str "d"])])
        [(.str "d", .obj [("bool", .num 5)])] =
      .ok (.err (.str "1") "AttributeError: object has no attribute setdefault",
           [(.str "d", .obj [("bool", .num 5)])])) ∧
    (∃ trace, run_execution_plan env0 (.obj [("plans", .arr mixedPlanTasks)]) =
        .ok (.completed trace (aggregate trace)) ∧
      ∀ t ∈ mixedPlanTasks, ∃ o ∈ trace, outcomeId o = taskIdVal t) :=
  ⟨dispatcher_catches_and_trace_complete.1 env0
      [("task_id", .str "1"), ("tool_name", .str "search_alerts"),
       ("sub_task", .str "s"), ("dependent_on_tasks", .arr [.str "d"])]
      [(.str "d", .obj [("bool", .num 5)])] "search_alerts"
      "AttributeError: object has no attribute setdefault" (by decide) (by decide),
   dispatcher_catches_and_trace_complete.2 env0 [("plans", .arr mixedPlanTasks)]
      mixedPlanTasks rfl (by decide)⟩

/-- A plan whose first task raises inside the try block (its task_id
lookup fails with KeyError, which the dispatcher catches) and whose
second entry is not a dict at all. -/
def nonDictTaskPlan : JVal := .obj [("plans", .arr [
  .obj [("tool_name", .str "build_query"), ("sub_task", .str "a")],
  .num 5])]

/-- C2 counterexample.  The first task of nonDictTaskPlan raises inside
the dispatcher try block and is duly converted to a failure outcome; yet
the remaining entry of the plan is never dispatched and has no trace
record, because reading task.get on the non-dict second entry raises
AttributeError out of the whole run. -/
theorem run_raises_on_nondict_task :
    execute_task env0 (.obj [("tool_name", .str "build_query"), ("sub_task", .str "a")]) [] =
      .ok (.err .null "KeyError: task_id", []) ∧
    run_execution_plan env0 nonDictTaskPlan =
      .error "AttributeError: object has no attribute get" :=
  ⟨by decide, by decide⟩

/-!
Heap model for the deep-copy contract of refine_query_for_tool.

The value-level embedding above cannot express aliasing, so the claim
that refinement never mutates the base query it was handed (the value
possibly shared with the Result Cache) is verified on a small heap
model: mutable dicts and lists live in heap cells addressed by
allocation order, values are scalars or references, and the source
operations — deepcopy, the chained setdefault, the in-place list
extension — are replayed against that heap.  The theorem then states
that reading the original reference back after refineH yields the value
that was loaded, unchanged.
-/

inductive HVal where
  | hnull
  | hbool (b : Bool)
  | hnum (n : Int)
  | hstr (s : String)
  | href (a : Nat)
  deriving DecidableEq, Repr

inductive HCell where
  | hdict (kvs : List (String × HVal))
  | hlist (xs : List HVal)
  deriving DecidableEq, Repr

abbrev PyHeap := List HCell

/-- Cell lookup by address (allocation index). -/
def heapGet : PyHeap → Nat → Option HCell
  | [], _ => none
  | c :: _, 0 => some c
  | _ :: h, n + 1 => heapGet h n

/-- In-place update of the cell at an address. -/
def heapSet : PyHeap → Nat → HCell → PyHeap
  | [], _, _ => []
  | _ :: h, 0, c => c :: h
  | c0 :: h, n + 1, c => c0 :: heapSet h n c

/-- Lookup in a heap dict (first binding wins, as for objGet). -/
def hobjGet : List (String × HVal) → String → Option HVal
  | [], _ => none
  | (k, v) :: rest, key => if k = key then some v else hobjGet rest key

/-- The addresses a heap value mentions. -/
def hvalRefs : HVal → List Nat
  | .href a => [a]
  | _ => []

/-- The addresses a cell mentions. -/
def cellRefs : HCell → List Nat
  | .hlist xs => (xs.map hvalRefs).flatten
  | .hdict kvs => (kvs.map (fun p => hvalRefs p.2)).flatten

mutual

/-- Allocate a tree value on the heap: children first, then the parent
cell at the next free address.  Scalars stay inline. -/
def loadV : JVal → PyHeap → PyHeap × HVal
  | .null, h => (h, .hnull)
  | .bool b, h => (h, .hbool b)
  | .num n, h => (h, .hnum n)
  | .str s, h => (h, .hstr s)
  | .arr xs, h =>
    ((loadL xs h).1 ++ [.hlist (loadL xs h).2], .href (loadL xs h).1.length)
  | .obj kvs, h =>
    ((loadO kvs h).1 ++ [.hdict (loadO kvs h).2], .href (loadO kvs h).1.length)

def loadL : List JVal → PyHeap → PyHeap × List HVal
  | [], h => (h, [])
  | x :: xs, h =>
    ((loadL xs (loadV x h).1).1, (loadV x h).2 :: (loadL xs (loadV x h).1).2)

def loadO : List (String × JVal) → PyHeap → PyHeap × List (String × HVal)
  | [], h => (h, [])
  | kx :: xs, h =>
    ((loadO xs (loadV kx.2 h).1).1, (kx.1, (loadV kx.2 h).2) :: (loadO xs (loadV kx.2 h).1).2)

end

mutual

/-- Read a heap value back as a tree, with fuel bounding the dereference
depth (the heaps built here are acyclic, so enough fuel always exists). -/
def readV (h : PyHeap) : Nat → HVal → Option JVal
  | 0, _ => none
  | _ + 1, .hnull => some .null
  | _ + 1, .hbool b => some (.bool b)
  | _ + 1, .hnum n => some (.num n)
  | _ + 1, .hstr s => some (.str s)
  | fuel + 1, .href a =>
    match heapGet h a with
    | some (.hlist xs) => (readL h fuel xs).map JVal.arr
    | some (.hdict kvs) => (readO h fuel kvs).map JVal.obj
    | none => none
termination_by fuel _v => (fuel, 0)

def readL (h : PyHeap) : Nat → List HVal → Option (List JVal)
  | _, [] => some []
  | fuel, v :: vs =>
    match readV h fuel v, readL h fuel vs with
    | some q, some qs => some (q :: qs)
    | _, _ => none
termination_by fuel xs => (fuel, xs.length + 1)

def readO (h : PyHeap) : Nat → List (String × HVal) → Option (List (String × JVal))
  | _, [] => some []
  | fuel, kv :: vs =>
    match readV h fuel kv.2, readO h fuel vs with
    | some q, some qs => some ((kv.1, q) :: qs)
    | _, _ => none
termination_by fuel xs => (fuel, xs.length + 1)

end

/-- Python dict.setdefault on the heap: the default object is allocated
first (at the current top address); either the existing binding is
returned, leaving the freshly allocated default as garbage, or the new
binding is installed in the dict cell at addr and the default
returned. -/
def hSetdefault (h : PyHeap) (addr : Nat) (kvs : List (String × HVal)) (key : String)
    (dflt : HCell) : PyHeap × HVal :=
  match hobjGet kvs key with
  | some v => (h ++ [dflt], v)
  | none => (heapSet (h ++ [dflt]) addr (.hdict (kvs ++ [(key, .href h.length)])),
             .href h.length)

/-- Extend the list cell at maddr in place with freshly allocated
elements for the tool additions. -/
def hExtend (h : PyHeap) (maddr : Nat) (ms : List HVal) (adds : List JVal) : PyHeap :=
  heapSet (loadL adds h).1 maddr (.hlist (ms ++ (loadL adds h).2))

/-- The mutation phase of refine_query_for_tool on the already deep-copied
dict at `c`: run `setdefault("bool", ...)` then `setdefault("must", ...)`
on its result, and extend the must list with the tool additions.  The
`.append` of the vulnerabilities branch checks its receiver before its
argument dict is allocated; the `+=` of the other branches reads its
target first and allocates the list display before the type of the target
is checked. -/
def refineHCore (h : PyHeap) (c : HVal) (tool : String) : PyHeap × Except String HVal :=
  match c with
  | .href ca =>
    (match heapGet h ca with
     | some (.hdict ckvs) =>
       (match hSetdefault h ca ckvs "bool" (.hdict []) with
        | (h2, .href ba) =>
          (match heapGet h2 ba with
           | some (.hdict bkvs) =>
             (match hSetdefault h2 ba bkvs "must" (.hlist []) with
              | (h4, mval) =>
                (match refineAdditions tool with
                 | [] => (h4, .ok (.href ca))
                 | adds =>
                   if tool = "search_vulnerabilities" then
                     (match mval with
                      | .href maddr =>
                        (match heapGet h4 maddr with
                         | some (.hlist ms) => (hExtend h4 maddr ms adds, .ok (.href ca))
                         | _ => (h4, .error "AttributeError: object has no attribute append"))
                      | _ => (h4, .error "AttributeError: object has no attribute append"))
                   else
                     (match mval with
                      | .href maddr =>
                        (match heapGet h4 maddr with
                         | some (.hlist ms) => (hExtend h4 maddr ms adds, .ok (.href ca))
                         | _ => ((loadL adds h4).1,
                                 .error "TypeError: unsupported operand types for iadd"))
                      | _ => ((loadL adds h4).1,
                              .error "TypeError: unsupported operand types for iadd"))))
           | _ => (h2, .error "AttributeError: object has no attribute setdefault"))
        | (h2, _) => (h2, .error "AttributeError: object has no attribute setdefault"))
     | _ => (h, .error "internal: deep copy root is not a dict"))
  | _ => (h, .error "internal: deep copy root is not a ref")

/-- refine_query_for_tool on the heap: a non-dict base (scalar or list
reference) is returned unchanged; a dict base is deep-copied — the copy
is an isomorphic disjoint graph, realized by reading the acyclic object
back as a tree and reloading it at fresh addresses — and the mutation
phase runs against the copy only. -/
def refineH (h : PyHeap) (base : HVal) (tool : String) : PyHeap × Except String HVal :=
  match base with
  | .href a =>
    (match heapGet h a with
     | some (.hdict _) =>
       (match readV h (h.length + 1) base with
        | some q =>
          let p := loadV q h
          refineHCore p.1 p.2 tool
        | none => (h, .error "RecursionError: deep copy of a cyclic object"))
     | _ => (h, .ok base))
  | v => (h, .ok v)

theorem heapGet_append_single (h : PyHeap) (c : HCell) (i : Nat) :
    heapGet (h ++ [c]) i =
      if i < h.length then heapGet h i else if i = h.length then some c else none := by
  induction h generalizing i with
  | nil => cases i <;> simp [heapGet]
  | cons c0 rest ih =>
    cases i with
    | zero => simp [heapGet]
    | succ m =>
      show heapGet (rest ++ [c]) m = _
      rw [ih m]
      by_cases h1 : m < rest.length
      · simp [h1, Nat.succ_lt_succ h1, heapGet]
      · by_cases h2 : m = rest.length
        · simp [h1, h2]
        · have e1 : ¬ (m + 1 < rest.length + 1) := by omega
          have e2 : ¬ (m + 1 = rest.length + 1) := by omega
          simp [h1, h2, e1, e2]

theorem heapGet_append_left {h : PyHeap} (δ : PyHeap) {i : Nat} (hi : i < h.length) :
    heapGet (h ++ δ) i = heapGet h i := by
  induction h generalizing i with
  | nil => simp at hi
  | cons c rest ih =>
    cases i with
    | zero => rfl
    | succ m => exact ih (by simpa using hi)

theorem heapGet_none_of_ge {h : PyHeap} {i : Nat} (hi : h.length ≤ i) : heapGet h i = none := by
  induction h generalizing i with
  | nil => cases i <;> rfl
  | cons c rest ih =>
    cases i with
    | zero => simp at hi
    | succ m => exact ih (by simpa using hi)

theorem heapGet_lt_of_some {h : PyHeap} {i : Nat} {c : HCell} (hg : heapGet h i = some c) :
    i < h.length := by
  by_contra hlt
  rw [heapGet_none_of_ge (by omega)] at hg
  cases hg

theorem heapSet_length (h : PyHeap) (j : Nat) (c : HCell) :
    (heapSet h j c).length = h.length := by
  induction h generalizing j with
  | nil => rfl
  | cons c0 rest ih =>
    cases j with
    | zero => rfl
    | succ m => simp [heapSet, ih]

theorem heapGet_heapSet (h : PyHeap) (i j : Nat) (c : HCell) :
    heapGet (heapSet h j c) i =
      if i = j ∧ j < h.length then some c else heapGet h i := by
  induction h generalizing i j with
  | nil => simp [heapSet]
  | cons c0 rest ih =>
    cases j with
    | zero =>
      cases i with
      | zero => simp [heapSet, heapGet]
      | succ m => simp [heapSet, heapGet]
    | succ mj =>
      cases i with
      | zero => simp [heapSet, heapGet]
      | succ mi =>
        simp only [heapSet, heapGet, ih, List.length_cons]
        by_cases he : mi = mj
        · by_cases hl : mj < rest.length
          · simp [he, hl]
          · simp [he, hl]
        · have : ¬(mi + 1 = mj + 1) := by omega
          simp [he, this]

/-- Every cell references only strictly smaller addresses (heaps built by
loading trees bottom-up satisfy this). -/
def HeapDC (h : PyHeap) : Prop :=
  ∀ i c, heapGet h i = some c → ∀ a ∈ cellRefs c, a < i

/-- Every cell at an address at or above the watermark references only
addresses at or above the watermark (the freshly copied region never
points back into the original). -/
def FreshOK (n : Nat) (h : PyHeap) : Prop :=
  ∀ i c, n ≤ i → heapGet h i = some c → ∀ a ∈ cellRefs c, n ≤ a

theorem heapDC_nil : HeapDC [] := by
  intro i c hg
  cases i <;> simp [heapGet] at hg

theorem freshOK_watermark (h : PyHeap) : FreshOK h.length h := by
  intro i c hi hg
  have := heapGet_lt_of_some hg
  omega

theorem freshOK_append {n : Nat} {h : PyHeap} (hf : FreshOK n h) {c : HCell}
    (hc : ∀ a ∈ cellRefs c, n ≤ a) : FreshOK n (h ++ [c]) := by
  intro i c0 hi hg
  rw [heapGet_append_single] at hg
  by_cases h1 : i < h.length
  · rw [if_pos h1] at hg
    exact hf i c0 hi hg
  · rw [if_neg h1] at hg
    by_cases h2 : i = h.length
    · rw [if_pos h2] at hg
      cases hg
      exact hc
    · rw [if_neg h2] at hg
      exact Option.noConfusion hg

theorem freshOK_set {n : Nat} {h : PyHeap} (hf : FreshOK n h) {j : Nat} {c : HCell}
    (hc : ∀ a ∈ cellRefs c, n ≤ a) : FreshOK n (heapSet h j c) := by
  intro i c0 hi hg
  rw [heapGet_heapSet] at hg
  by_cases h1 : i = j ∧ j < h.length
  · rw [if_pos h1] at hg
    cases hg
    exact hc
  · rw [if_neg h1] at hg
    exact hf i c0 hi hg

theorem hobjGet_ref_mem {kvs : List (String × HVal)} {k : String} {a : Nat}
    (h : hobjGet kvs k = some (.href a)) : a ∈ cellRefs (.hdict kvs) := by
  induction kvs with
  | nil => simp [hobjGet] at h
  | cons kv rest ih =>
    obtain ⟨k0, v⟩ := kv
    by_cases he : k0 = k
    · simp only [hobjGet, if_pos he, Option.some.injEq] at h
      subst h
      simp [cellRefs, hvalRefs]
    · simp only [hobjGet, if_neg he] at h
      have := ih h
      simp only [cellRefs, List.map_cons, List.flatten_cons, List.mem_append]
      right
      simpa [cellRefs] using this

theorem ref_mem_cellRefs_list {xs : List HVal} {v : HVal} (hm : v ∈ xs) {a : Nat}
    (hv : v = .href a) : a ∈ cellRefs (.hlist xs) := by
  subst hv
  simp only [cellRefs, List.mem_flatten]
  exact ⟨hvalRefs (.href a), List.mem_map_of_mem _ hm, by simp [hvalRefs]⟩

theorem ref_mem_cellRefs_dict {kvs : List (String × HVal)} {kv : String × HVal}
    (hm : kv ∈ kvs) {a : Nat} (hv : kv.2 = .href a) : a ∈ cellRefs (.hdict kvs) := by
  simp only [cellRefs, List.mem_flatten]
  exact ⟨hvalRefs kv.2, List.mem_map_of_mem _ hm, by simp [hv, hvalRefs]⟩

theorem mem_hvalRefs {v : HVal} {a : Nat} (h : a ∈ hvalRefs v) : v = .href a := by
  cases v with
  | href b => simp only [hvalRefs, List.mem_singleton] at h; simp [h]
  | hnull => simp [hvalRefs] at h
  | hbool b => simp [hvalRefs] at h
  | hnum n => simp [hvalRefs] at h
  | hstr s => simp [hvalRefs] at h

theorem cellRefs_list_mem {xs : List HVal} {a : Nat} (h : a ∈ cellRefs (.hlist xs)) :
    ∃ v ∈ xs, v = HVal.href a := by
  simp only [cellRefs, List.mem_flatten, List.mem_map] at h
  obtain ⟨l, ⟨v, hv, rfl⟩, ha⟩ := h
  exact ⟨v, hv, mem_hvalRefs ha⟩

theorem cellRefs_dict_mem {kvs : List (String × HVal)} {a : Nat}
    (h : a ∈ cellRefs (.hdict kvs)) : ∃ kv ∈ kvs, kv.2 = HVal.href a := by
  simp only [cellRefs, List.mem_flatten, List.mem_map] at h
  obtain ⟨l, ⟨kv, hkv, rfl⟩, ha⟩ := h
  exact ⟨kv, hkv, mem_hvalRefs ha⟩

mutual

theorem loadV_spec : ∀ (q : JVal) (h : PyHeap),
    (∃ δ, (loadV q h).1 = h ++ δ) ∧
    (∀ a, (loadV q h).2 = .href a → h.length ≤ a ∧ a < (loadV q h).1.length) ∧
    (HeapDC h → HeapDC (loadV q h).1) ∧
    (∀ m, m ≤ h.length → FreshOK m h → FreshOK m (loadV q h).1)
  | .null, h =>
    ⟨⟨[], by simp [loadV]⟩, by simp [loadV], fun hd => hd, fun _ _ hf => hf⟩
  | .bool b, h =>
    ⟨⟨[], by simp [loadV]⟩, by simp [loadV], fun hd => hd, fun _ _ hf => hf⟩
  | .num n, h =>
    ⟨⟨[], by simp [loadV]⟩, by simp [loadV], fun hd => hd, fun _ _ hf => hf⟩
  | .str s, h =>
    ⟨⟨[], by simp [loadV]⟩, by simp [loadV], fun hd => hd, fun _ _ hf => hf⟩
  | .arr xs, h => by
    obtain ⟨⟨δ1, hδ1⟩, hroots, hdc, hfresh⟩ := loadL_spec xs h
    have hlen1 : h.length ≤ (loadL xs h).1.length := by simp [hδ1]
    refine ⟨⟨δ1 ++ [.hlist (loadL xs h).2], by simp [loadV, hδ1]⟩, ?_, ?_, ?_⟩
    · intro a ha
      simp only [loadV, HVal.href.injEq] at ha
      subst ha
      simp only [loadV, List.length_append, List.length_cons, List.length_nil]
      omega
    · intro hdch
      have hdcP := hdc hdch
      intro i c hg a ha
      simp only [loadV] at hg
      rw [heapGet_append_single] at hg
      by_cases h1 : i < (loadL xs h).1.length
      · rw [if_pos h1] at hg
        exact hdcP i c hg a ha
      · rw [if_neg h1] at hg
        by_cases h2 : i = (loadL xs h).1.length
        · rw [if_pos h2] at hg
          cases hg
          obtain ⟨v, hv, hva⟩ := cellRefs_list_mem ha
          have := (hroots v hv a hva).2
          omega
        · rw [if_neg h2] at hg
          exact Option.noConfusion hg
    · intro m hm hf
      have hfP := hfresh m hm hf
      simp only [loadV]
      refine freshOK_append hfP ?_
      intro a ha
      obtain ⟨v, hv, hva⟩ := cellRefs_list_mem ha
      have := (hroots v hv a hva).1
      omega
  | .obj kvs, h => by
    obtain ⟨⟨δ1, hδ1⟩, hroots, hdc, hfresh⟩ := loadO_spec kvs h
    have hlen1 : h.length ≤ (loadO kvs h).1.length := by simp [hδ1]
    refine ⟨⟨δ1 ++ [.hdict (loadO kvs h).2], by simp [loadV, hδ1]⟩, ?_, ?_, ?_⟩
    · intro a ha
      simp only [loadV, HVal.href.injEq] at ha
      subst ha
      simp only [loadV, List.length_append, List.length_cons, List.length_nil]
      omega
    · intro hdch
      have hdcP := hdc hdch
      intro i c hg a ha
      simp only [loadV] at hg
      rw [heapGet_append_single] at hg
      by_cases h1 : i < (loadO kvs h).1.length
      · rw [if_pos h1] at hg
        exact hdcP i c hg a ha
      · rw [if_neg h1] at hg
        by_cases h2 : i = (loadO kvs h).1.length
        · rw [if_pos h2] at hg
          cases hg
          obtain ⟨kv, hkv, hva⟩ := cellRefs_dict_mem ha
          have := (hroots kv hkv a hva).2
          omega
        · rw [if_neg h2] at hg
          exact Option.noConfusion hg
    · intro m hm hf
      have hfP := hfresh m hm hf
      simp only [loadV]
      refine freshOK_append hfP ?_
      intro a ha
      obtain ⟨kv, hkv, hva⟩ := cellRefs_dict_mem ha
      have := (hroots kv hkv a hva).1
      omega

theorem loadL_spec : ∀ (xs : List JVal) (h : PyHeap),
    (∃ δ, (loadL xs h).1 = h ++ δ) ∧
    (∀ v ∈ (loadL xs h).2, ∀ a, v = .href a → h.length ≤ a ∧ a < (loadL xs h).1.length) ∧
    (HeapDC h → HeapDC (loadL xs h).1) ∧
    (∀ m, m ≤ h.length → FreshOK m h → FreshOK m (loadL xs h).1)
  | [], h => ⟨⟨[], by simp [loadL]⟩, by simp [loadL], fun hd => hd, fun _ _ hf => hf⟩
  | x :: xs, h => by
    obtain ⟨⟨δa, hδa⟩, hroot1, hdc1, hfresh1⟩ := loadV_spec x h
    obtain ⟨⟨δb, hδb⟩, hroot2, hdc2, hfresh2⟩ := loadL_spec xs (loadV x h).1
    have hlen1 : h.length ≤ (loadV x h).1.length := by simp [hδa]
    have hlen2 : (loadV x h).1.length ≤ (loadL xs (loadV x h).1).1.length := by simp [hδb]
    refine ⟨⟨δa ++ δb, by simp only [loadL]; rw [hδb, hδa, List.append_assoc]⟩, ?_, ?_, ?_⟩
    · intro v hv a ha
      simp only [loadL, List.mem_cons] at hv
      rcases hv with rfl | hv
      · have := hroot1 a ha
        simp only [loadL]
        omega
      · have := hroot2 v hv a ha
        simp only [loadL]
        omega
    · intro hdch
      simp only [loadL]
      exact hdc2 (hdc1 hdch)
    · intro m hm hf
      simp only [loadL]
      exact hfresh2 m (by omega) (hfresh1 m hm hf)

theorem loadO_spec : ∀ (kvs : List (String × JVal)) (h : PyHeap),
    (∃ δ, (loadO kvs h).1 = h ++ δ) ∧
    (∀ kv ∈ (loadO kvs h).2, ∀ a, kv.2 = .href a →
      h.length ≤ a ∧ a < (loadO kvs h).1.length) ∧
    (HeapDC h → HeapDC (loadO kvs h).1) ∧
    (∀ m, m ≤ h.length → FreshOK m h → FreshOK m (loadO kvs h).1)
  | [], h => ⟨⟨[], by simp [loadO]⟩, by simp [loadO], fun hd => hd, fun _ _ hf => hf⟩
  | kx :: xs, h => by
    obtain ⟨⟨δa, hδa⟩, hroot1, hdc1, hfresh1⟩ := loadV_spec kx.2 h
    obtain ⟨⟨δb, hδb⟩, hroot2, hdc2, hfresh2⟩ := loadO_spec xs (loadV kx.2 h).1
    have hlen1 : h.length ≤ (loadV kx.2 h).1.length := by simp [hδa]
    have hlen2 : (loadV kx.2 h).1.length ≤ (loadO xs (loadV kx.2 h).1).1.length := by
      simp [hδb]
    refine ⟨⟨δa ++ δb, by simp only [loadO]; rw [hδb, hδa, List.append_assoc]⟩, ?_, ?_, ?_⟩
    · intro kv hkv a ha
      simp only [loadO, List.mem_cons] at hkv
      rcases hkv with rfl | hkv
      · have := hroot1 a ha
        simp only [loadO]
        omega
      · have := hroot2 kv hkv a ha
        simp only [loadO]
        omega
    · intro hdch
      simp only [loadO]
      exact hdc2 (hdc1 hdch)
    · intro m hm hf
      simp only [loadO]
      exact hfresh2 m (by omega) (hfresh1 m hm hf)

end

theorem read_congr (fuel : Nat) :
    ∀ (h1 h2 : PyHeap) (n : Nat),
      (∀ i, i < n → heapGet h2 i = heapGet h1 i) → HeapDC h1 →
      (∀ v : HVal, (∀ a, v = .href a → a < n) → readV h2 fuel v = readV h1 fuel v) ∧
      (∀ xs : List HVal, (∀ v ∈ xs, ∀ a, v = .href a → a < n) →
        readL h2 fuel xs = readL h1 fuel xs) ∧
      (∀ kvs : List (String × HVal), (∀ kv ∈ kvs, ∀ a, kv.2 = .href a → a < n) →
        readO h2 fuel kvs = readO h1 fuel kvs) := by
  induction fuel with
  | zero =>
    intro h1 h2 n hag hdc
    refine ⟨fun v _ => by simp [readV], ?_, ?_⟩
    · intro xs _
      cases xs with
      | nil => simp [readL]
      | cons v vs => simp [readL, readV]
    · intro kvs _
      cases kvs with
      | nil => simp [readO]
      | cons kv vs => simp [readO, readV]
  | succ f ih =>
    intro h1 h2 n hag hdc
    have hV : ∀ v : HVal, (∀ a, v = .href a → a < n) →
        readV h2 (f + 1) v = readV h1 (f + 1) v := by
      intro v hv
      cases v with
      | hnull => simp [readV]
      | hbool b => simp [readV]
      | hnum m => simp [readV]
      | hstr s => simp [readV]
      | href a =>
        have ha : a < n := hv a rfl
        rw [readV, readV, hag a ha]
        cases hg : heapGet h1 a with
        | none => rfl
        | some c =>
          have hcr := hdc a c hg
          cases c with
          | hlist xs =>
            show Option.map JVal.arr (readL h2 f xs) = Option.map JVal.arr (readL h1 f xs)
            rw [(ih h1 h2 n hag hdc).2.1 xs ?_]
            intro v hvm b hvb
            have : b ∈ cellRefs (.hlist xs) := ref_mem_cellRefs_list hvm hvb
            have := hcr b this
            omega
          | hdict kvs =>
            show Option.map JVal.obj (readO h2 f kvs) = Option.map JVal.obj (readO h1 f kvs)
            rw [(ih h1 h2 n hag hdc).2.2 kvs ?_]
            intro kv hkvm b hkvb
            have : b ∈ cellRefs (.hdict kvs) := ref_mem_cellRefs_dict hkvm hkvb
            have := hcr b this
            omega
    refine ⟨hV, ?_, ?_⟩
    · intro xs hxs
      induction xs with
      | nil => simp [readL]
      | cons v vs ihx =>
        rw [readL, readL, hV v (hxs v (by simp)), ihx (fun u hu => hxs u (by simp [hu]))]
    · intro kvs hkvs
      induction kvs with
      | nil => simp [readO]
      | cons kv vs ihx =>
        rw [readO, readO, hV kv.2 (hkvs kv (by simp)),
          ihx (fun u hu => hkvs u (by simp [hu]))]

mutual

theorem load_read_V : ∀ (q : JVal) (h : PyHeap), HeapDC h →
    ∀ fuel, (loadV q h).1.length - h.length < fuel →
    readV (loadV q h).1 fuel (loadV q h).2 = some q
  | .null, h => by
    intro _ fuel hf
    cases fuel with
    | zero => exact absurd hf (by simp [loadV])
    | succ f => simp [loadV, readV]
  | .bool b, h => by
    intro _ fuel hf
    cases fuel with
    | zero => exact absurd hf (by simp [loadV])
    | succ f => simp [loadV, readV]
  | .num n, h => by
    intro _ fuel hf
    cases fuel with
    | zero => exact absurd hf (by simp [loadV])
    | succ f => simp [loadV, readV]
  | .str s, h => by
    intro _ fuel hf
    cases fuel with
    | zero => exact absurd hf (by simp [loadV])
    | succ f => simp [loadV, readV]
  | .arr xs, h => by
    intro hdc fuel hf
    obtain ⟨⟨δ1, hδ1⟩, hroots, hdcL, _⟩ := loadL_spec xs h
    have hlen1 : h.length ≤ (loadL xs h).1.length := by simp [hδ1]
    have hA : (loadV (.arr xs) h).1.length = (loadL xs h).1.length + 1 := by simp [loadV]
    cases fuel with
    | zero => rw [hA] at hf; omega
    | succ f =>
      have hfl : (loadL xs h).1.length - h.length < f := by rw [hA] at hf; omega
      have h2eq : (loadV (.arr xs) h).2 = .href (loadL xs h).1.length := by simp [loadV]
      have hHeq : (loadV (.arr xs) h).1 = (loadL xs h).1 ++ [.hlist (loadL xs h).2] := by
        simp [loadV]
      have hget : heapGet ((loadL xs h).1 ++ [.hlist (loadL xs h).2]) (loadL xs h).1.length
          = some (.hlist (loadL xs h).2) := by
        rw [heapGet_append_single]
        simp
      rw [h2eq, hHeq, readV, hget]
      show Option.map JVal.arr
          (readL ((loadL xs h).1 ++ [.hlist (loadL xs h).2]) f (loadL xs h).2) =
        some (.arr xs)
      rw [(read_congr f (loadL xs h).1 ((loadL xs h).1 ++ [.hlist (loadL xs h).2])
            (loadL xs h).1.length (fun i hi => heapGet_append_left _ hi) (hdcL hdc)).2.1
          (loadL xs h).2 (fun v hv a ha => (hroots v hv a ha).2)]
      rw [load_read_L xs h hdc f hfl]
      rfl
  | .obj kvs, h => by
    intro hdc fuel hf
    obtain ⟨⟨δ1, hδ1⟩, hroots, hdcL, _⟩ := loadO_spec kvs h
    have hlen1 : h.length ≤ (loadO kvs h).1.length := by simp [hδ1]
    have hA : (loadV (.obj kvs) h).1.length = (loadO kvs h).1.length + 1 := by simp [loadV]
    cases fuel with
    | zero => rw [hA] at hf; omega
    | succ f =>
      have hfl : (loadO kvs h).1.length - h.length < f := by rw [hA] at hf; omega
      have h2eq : (loadV (.obj kvs) h).2 = .href (loadO kvs h).1.length := by simp [loadV]
      have hHeq : (loadV (.obj kvs) h).1 = (loadO kvs h).1 ++ [.hdict (loadO kvs h).2] := by
        simp [loadV]
      have hget : heapGet ((loadO kvs h).1 ++ [.hdict (loadO kvs h).2]) (loadO kvs h).1.length
          = some (.hdict (loadO kvs h).2) := by
        rw [heapGet_append_single]
        simp
      rw [h2eq, hHeq, readV, hget]
      show Option.map JVal.obj
          (readO ((loadO kvs h).1 ++ [.hdict (loadO kvs h).2]) f (loadO kvs h).2) =
        some (.obj kvs)
      rw [(read_congr f (loadO kvs h).1 ((loadO kvs h).1 ++ [.hdict (loadO kvs h).2])
            (loadO kvs h).1.length (fun i hi => heapGet_append_left _ hi) (hdcL hdc)).2.2
          (loadO kvs h).2 (fun kv hkv a ha => (hroots kv hkv a ha).2)]
      rw [load_read_O kvs h hdc f hfl]
      rfl

theorem load_read_L : ∀ (xs : List JVal) (h : PyHeap), HeapDC h →
    ∀ fuel, (loadL xs h).1.length - h.length < fuel →
    readL (loadL xs h).1 fuel (loadL xs h).2 = some xs
  | [], h => by
    intro _ fuel _
    simp [loadL, readL]
  | x :: xs, h => by
    intro hdc fuel hf
    obtain ⟨⟨δa, hδa⟩, hroot1, hdc1, _⟩ := loadV_spec x h
    obtain ⟨⟨δb, hδb⟩, _, _, _⟩ := loadL_spec xs (loadV x h).1
    have hlen1 : h.length ≤ (loadV x h).1.length := by simp [hδa]
    have hlen2 : (loadV x h).1.length ≤ (loadL xs (loadV x h).1).1.length := by simp [hδb]
    have hHeq : (loadL (x :: xs) h).1 = (loadL xs (loadV x h).1).1 := by simp [loadL]
    have hVeq : (loadL (x :: xs) h).2 = (loadV x h).2 :: (loadL xs (loadV x h).1).2 := by
      simp [loadL]
    rw [hHeq] at hf
    have hb1 : (loadV x h).1.length - h.length < fuel := by omega
    have hb2 : (loadL xs (loadV x h).1).1.length - (loadV x h).1.length < fuel := by omega
    rw [hHeq, hVeq, readL]
    rw [(read_congr fuel (loadV x h).1 (loadL xs (loadV x h).1).1
          (loadV x h).1.length (fun i hi => by rw [hδb]; exact heapGet_append_left _ hi)
          (hdc1 hdc)).1 (loadV x h).2 (fun a ha => (hroot1 a ha).2)]
    rw [load_read_V x h hdc fuel hb1]
    rw [load_read_L xs (loadV x h).1 (hdc1 hdc) fuel hb2]

theorem load_read_O : ∀ (kvs : List (String × JVal)) (h : PyHeap), HeapDC h →
    ∀ fuel, (loadO kvs h).1.length - h.length < fuel →
    readO (loadO kvs h).1 fuel (loadO kvs h).2 = some kvs
  | [], h => by
    intro _ fuel _
    simp [loadO, readO]
  | kx :: xs, h => by
    intro hdc fuel hf
    obtain ⟨⟨δa, hδa⟩, hroot1, hdc1, _⟩ := loadV_spec kx.2 h
    obtain ⟨⟨δb, hδb⟩, _, _, _⟩ := loadO_spec xs (loadV kx.2 h).1
    have hlen1 : h.length ≤ (loadV kx.2 h).1.length := by simp [hδa]
    have hlen2 : (loadV kx.2 h).1.length ≤ (loadO xs (loadV kx.2 h).1).1.length := by
      simp [hδb]
    have hHeq : (loadO (kx :: xs) h).1 = (loadO xs (loadV kx.2 h).1).1 := by simp [loadO]
    have hVeq : (loadO (kx :: xs) h).2 =
        (kx.1, (loadV kx.2 h).2) :: (loadO xs (loadV kx.2 h).1).2 := by simp [loadO]
    rw [hHeq] at hf
    have hb1 : (loadV kx.2 h).1.length - h.length < fuel := by omega
    have hb2 : (loadO xs (loadV kx.2 h).1).1.length - (loadV kx.2 h).1.length < fuel := by
      omega
    rw [hHeq, hVeq, readO]
    rw [(read_congr fuel (loadV kx.2 h).1 (loadO xs (loadV kx.2 h).1).1
          (loadV kx.2 h).1.length (fun i hi => by rw [hδb]; exact heapGet_append_left _ hi)
          (hdc1 hdc)).1 (loadV kx.2 h).2 (fun a ha => (hroot1 a ha).2)]
    rw [load_read_V kx.2 h hdc fuel hb1]
    rw [load_read_O xs (loadV kx.2 h).1 (hdc1 hdc) fuel hb2]

end

theorem hSetdefault_spec (h : PyHeap) (addr : Nat) (kvs : List (String × HVal)) (key : String)
    (dflt : HCell) (n : Nat) (hn : n ≤ h.length) (hf : FreshOK n h) (haddr : n ≤ addr)
    (hkvs : ∀ a ∈ cellRefs (.hdict kvs), n ≤ a) (hdflt : cellRefs dflt = []) :
    (∀ i, i < n → heapGet (hSetdefault h addr kvs key dflt).1 i = heapGet h i) ∧
    h.length ≤ (hSetdefault h addr kvs key dflt).1.length ∧
    FreshOK n (hSetdefault h addr kvs key dflt).1 ∧
    (∀ a, (hSetdefault h addr kvs key dflt).2 = .href a → n ≤ a) := by
  have hfa : FreshOK n (h ++ [dflt]) := by
    refine freshOK_append hf ?_
    intro a ha
    rw [hdflt] at ha
    cases ha
  cases hb : hobjGet kvs key with
  | some v =>
    refine ⟨?_, ?_, ?_, ?_⟩
    · intro i hi
      simp only [hSetdefault, hb]
      exact heapGet_append_left _ (by omega)
    · simp [hSetdefault, hb]
    · simpa [hSetdefault, hb] using hfa
    · intro a ha
      simp only [hSetdefault, hb] at ha
      exact hkvs a (hobjGet_ref_mem (ha ▸ hb))
  | none =>
    have hnew : ∀ a ∈ cellRefs (.hdict (kvs ++ [(key, .href h.length)])), n ≤ a := by
      intro a ha
      obtain ⟨kv, hkv, hkva⟩ := cellRefs_dict_mem ha
      rcases List.mem_append.mp hkv with hkv | hkv
      · exact hkvs a (ref_mem_cellRefs_dict hkv hkva)
      · simp only [List.mem_singleton] at hkv
        subst hkv
        simp only [HVal.href.injEq] at hkva
        omega
    refine ⟨?_, ?_, ?_, ?_⟩
    · intro i hi
      simp only [hSetdefault, hb]
      rw [heapGet_heapSet]
      rw [if_neg (by omega)]
      exact heapGet_append_left _ (by omega)
    · simp [hSetdefault, hb, heapSet_length]
    · simpa [hSetdefault, hb] using freshOK_set hfa hnew
    · intro a ha
      simp only [hSetdefault, hb, HVal.href.injEq] at ha
      omega

theorem hExtend_spec (h : PyHeap) (maddr : Nat) (ms : List HVal) (adds : List JVal) (n : Nat)
    (hn : n ≤ h.length) (hmaddr : n ≤ maddr) :
    (∀ i, i < n → heapGet (hExtend h maddr ms adds) i = heapGet h i) ∧
    h.length ≤ (hExtend h maddr ms adds).length := by
  obtain ⟨⟨δ, hδ⟩, _, _, _⟩ := loadL_spec adds h
  constructor
  · intro i hi
    simp only [hExtend]
    rw [heapGet_heapSet, if_neg (by omega), hδ]
    exact heapGet_append_left _ (by omega)
  · simp [hExtend, heapSet_length, hδ]

theorem refineHCore_prefix (h : PyHeap) (c : HVal) (tool : String) (n : Nat)
    (hn : n ≤ h.length) (hf : FreshOK n h) (hc : ∀ a, c = .href a → n ≤ a) :
    (∀ i, i < n → heapGet (refineHCore h c tool).1 i = heapGet h i) ∧
    h.length ≤ (refineHCore h c tool).1.length := by
  cases c with
  | hnull => exact ⟨fun i _ => by simp [refineHCore], by simp [refineHCore]⟩
  | hbool b => exact ⟨fun i _ => by simp [refineHCore], by simp [refineHCore]⟩
  | hnum m => exact ⟨fun i _ => by simp [refineHCore], by simp [refineHCore]⟩
  | hstr s => exact ⟨fun i _ => by simp [refineHCore], by simp [refineHCore]⟩
  | href ca =>
    have hca : n ≤ ca := hc ca rfl
    cases hg : heapGet h ca with
    | none => exact ⟨fun i _ => by simp [refineHCore, hg], by simp [refineHCore, hg]⟩
    | some cell =>
      cases cell with
      | hlist xs => exact ⟨fun i _ => by simp [refineHCore, hg], by simp [refineHCore, hg]⟩
      | hdict ckvs =>
        have hckvs : ∀ a ∈ cellRefs (.hdict ckvs), n ≤ a := hf ca _ hca hg
        obtain ⟨pre1, len1, fr1, val1⟩ :=
          hSetdefault_spec h ca ckvs "bool" (.hdict []) n hn hf hca hckvs (by simp [cellRefs])
        simp only [refineHCore, hg]
        cases hpb : hSetdefault h ca ckvs "bool" (.hdict []) with
        | mk h2 bval =>
          rw [hpb] at pre1 len1 fr1 val1
          dsimp only at pre1 len1 fr1 val1
          cases bval with
          | hnull => exact ⟨pre1, len1⟩
          | hbool b => exact ⟨pre1, len1⟩
          | hnum m => exact ⟨pre1, len1⟩
          | hstr s => exact ⟨pre1, len1⟩
          | href ba =>
            have hba : n ≤ ba := val1 ba rfl
            have hn2 : n ≤ h2.length := by omega
            dsimp only
            cases hg2 : heapGet h2 ba with
            | none => exact ⟨pre1, len1⟩
            | some cell2 =>
              cases cell2 with
              | hlist ys => exact ⟨pre1, len1⟩
              | hdict bkvs =>
                have hbkvs : ∀ a ∈ cellRefs (.hdict bkvs), n ≤ a := fr1 ba _ hba hg2
                obtain ⟨pre2, len2, fr2, val2⟩ :=
                  hSetdefault_spec h2 ba bkvs "must" (.hlist []) n hn2 fr1 hba hbkvs
                    (by simp [cellRefs])
                dsimp only
                cases hpm : hSetdefault h2 ba bkvs "must" (.hlist []) with
                | mk h4 mval =>
                  rw [hpm] at pre2 len2 fr2 val2
                  dsimp only at pre2 len2 fr2 val2
                  have hpre12 : ∀ i, i < n → heapGet h4 i = heapGet h i := by
                    intro i hi
                    rw [pre2 i hi, pre1 i hi]
                  have hlen12 : h.length ≤ h4.length := by omega
                  have hn4 : n ≤ h4.length := by omega
                  dsimp only
                  cases refineAdditions tool with
                  | nil => exact ⟨hpre12, hlen12⟩
                  | cons a0 arest =>
                    obtain ⟨⟨δL, hδL⟩, _, _, _⟩ := loadL_spec (a0 :: arest) h4
                    have hloadpre : ∀ i, i < n →
                        heapGet (loadL (a0 :: arest) h4).1 i = heapGet h i := by
                      intro i hi
                      rw [hδL, heapGet_append_left _ (by omega)]
                      exact hpre12 i hi
                    have hloadlen : h.length ≤ (loadL (a0 :: arest) h4).1.length := by
                      simp only [hδL, List.length_append]
                      omega
                    dsimp only
                    by_cases ht : tool = "search_vulnerabilities"
                    · rw [if_pos ht]
                      cases mval with
                      | hnull => exact ⟨hpre12, hlen12⟩
                      | hbool b => exact ⟨hpre12, hlen12⟩
                      | hnum m => exact ⟨hpre12, hlen12⟩
                      | hstr s => exact ⟨hpre12, hlen12⟩
                      | href maddr =>
                        have hma : n ≤ maddr := val2 maddr rfl
                        dsimp only
                        cases hg4 : heapGet h4 maddr with
                        | none => exact ⟨hpre12, hlen12⟩
                        | some cm =>
                          cases cm with
                          | hdict zs => exact ⟨hpre12, hlen12⟩
                          | hlist ms =>
                            obtain ⟨preE, lenE⟩ :=
                              hExtend_spec h4 maddr ms (a0 :: arest) n hn4 hma
                            dsimp only
                            refine ⟨?_, by omega⟩
                            intro i hi
                            rw [preE i hi]
                            exact hpre12 i hi
                    · rw [if_neg ht]
                      cases mval with
                      | hnull => exact ⟨hloadpre, hloadlen⟩
                      | hbool b => exact ⟨hloadpre, hloadlen⟩
                      | hnum m => exact ⟨hloadpre, hloadlen⟩
                      | hstr s => exact ⟨hloadpre, hloadlen⟩
                      | href maddr =>
                        have hma : n ≤ maddr := val2 maddr rfl
                        dsimp only
                        cases hg4 : heapGet h4 maddr with
                        | none => exact ⟨hloadpre, hloadlen⟩
                        | some cm =>
                          cases cm with
                          | hdict zs => exact ⟨hloadpre, hloadlen⟩
                          | hlist ms =>
                            obtain ⟨preE, lenE⟩ :=
                              hExtend_spec h4 maddr ms (a0 :: arest) n hn4 hma
                            dsimp only
                            refine ⟨?_, by omega⟩
                            intro i hi
                            rw [preE i hi]
                            exact hpre12 i hi

theorem refineH_prefix (h : PyHeap) (base : HVal) (tool : String) :
    (∀ i, i < h.length → heapGet (refineH h base tool).1 i = heapGet h i) ∧
    h.length ≤ (refineH h base tool).1.length := by
  cases base with
  | hnull => exact ⟨fun i _ => by simp [refineH], by simp [refineH]⟩
  | hbool b => exact ⟨fun i _ => by simp [refineH], by simp [refineH]⟩
  | hnum m => exact ⟨fun i _ => by simp [refineH], by simp [refineH]⟩
  | hstr s => exact ⟨fun i _ => by simp [refineH], by simp [refineH]⟩
  | href a =>
    cases hg : heapGet h a with
    | none => exact ⟨fun i _ => by simp [refineH, hg], by simp [refineH, hg]⟩
    | some cell =>
      cases cell with
      | hlist xs => exact ⟨fun i _ => by simp [refineH, hg], by simp [refineH, hg]⟩
      | hdict kvs =>
        simp only [refineH, hg]
        cases hr : readV h (h.length + 1) (HVal.href a) with
        | none => exact ⟨fun i _ => rfl, le_refl _⟩
        | some q =>
          dsimp only
          obtain ⟨⟨δ, hδ⟩, hroot, _, hfresh⟩ := loadV_spec q h
          have hn1 : h.length ≤ (loadV q h).1.length := by simp [hδ]
          have hfok : FreshOK h.length (loadV q h).1 :=
            hfresh h.length (le_refl _) (freshOK_watermark h)
          have hc : ∀ b, (loadV q h).2 = HVal.href b → h.length ≤ b :=
            fun b hb => (hroot b hb).1
          obtain ⟨hpre, hlen⟩ :=
            refineHCore_prefix (loadV q h).1 (loadV q h).2 tool h.length hn1 hfok hc
          have hpre0 : ∀ i, i < h.length → heapGet (loadV q h).1 i = heapGet h i := by
            intro i hi
            rw [hδ, heapGet_append_left _ (by omega)]
          refine ⟨?_, by omega⟩
          intro i hi
          exact (hpre i hi).trans (hpre0 i hi)

/-- C8: `refine_query_for_tool` deep-copies a dict base query before
mutating it — running the heap-model refine on a base value loaded into
the heap leaves the caller-visible value reachable from the original
reference unchanged, for every input value and tool name, on success and
error paths alike. -/
theorem refine_preserves_caller_value (q : JVal) (tool : String) :
    readV (refineH (loadV q []).1 (loadV q []).2 tool).1
      ((refineH (loadV q []).1 (loadV q []).2 tool).1.length + 1)
      (loadV q []).2 = some q := by
  obtain ⟨⟨δ, hδ⟩, hroot, hdc, _⟩ := loadV_spec q []
  have hdc1 : HeapDC (loadV q []).1 := hdc heapDC_nil
  obtain ⟨hpre, hlen⟩ := refineH_prefix (loadV q []).1 (loadV q []).2 tool
  have hrefs : ∀ a, (loadV q []).2 = HVal.href a → a < (loadV q []).1.length :=
    fun a ha => (hroot a ha).2
  obtain ⟨hcv, _, _⟩ :=
    read_congr ((refineH (loadV q []).1 (loadV q []).2 tool).1.length + 1)
      (loadV q []).1 (refineH (loadV q []).1 (loadV q []).2 tool).1
      (loadV q []).1.length hpre hdc1
  rw [hcv (loadV q []).2 hrefs]
  exact load_read_V q [] heapDC_nil _ (by simp only [List.length_nil]; omega)
